import Mathlib

/-!
Verification development for the storage abstraction layer of a hierarchical
resource store: the `DataAccessor` backends (filesystem and in-memory), the
`NormalizedDataAccessor` slash-normalization base, and the
`DataAccessorBasedStore` orchestrator.

Identifiers are strings; path manipulation is implemented over `List Char`
so that the string functions used by the code (`ensureTrailingSlash`,
`trimTrailingSlashes`, `split('/')`, `endsWith('/')`, `startsWith`, `slice`)
have a directly analyzable form.
-/

set_option autoImplicit false

namespace CommunityServer

/-- POSIX-style system error codes surfaced by the filesystem backend. -/
inductive SysError where
  | ENOENT
  | EEXIST
  | EISDIR
  | ENOTDIR
  | ENOTEMPTY
  deriving DecidableEq, Repr

/-- Error taxonomy of the storage layer: HTTP-error conditions raised by the
store and the accessors, raw system errors, stream errors, generic `Error`
throws (`unknownResourceType` models `Error('Unknown resource type.')`,
`notImplemented` models `Error('Not supported.')`), a parse failure of the
metadata facade, and the fuel-exhaustion marker of the fueled embedding of
`createRecursiveContainers`. -/
inductive Err where
  | notFound
  | conflict
  | methodNotAllowed
  | unsupportedHttp
  | unsupportedMediaType
  | unknownResourceType
  | notImplemented
  | parseError
  | streamErr (msg : String)
  | sys (code : SysError)
  | fuelExhausted
  deriving DecidableEq, Repr

/-! ## Character-list path utilities

These model the string helpers of the repository's `Util` module
(`ensureTrailingSlash`, `trimTrailingSlashes`) and the JavaScript string
operations used by the accessors (`split('/')`, `endsWith('/')`,
`startsWith`, `slice`). -/

/-- Modelled from the spec: `trimTrailingSlashes` of the repository's `Util`
module (not under `src/`), used as `path.replace(/\/+$/u, '')`: remove every
trailing `/`. -/
def trimTrailingSlashesL (l : List Char) : List Char :=
  ((l.reverse.dropWhile (fun c => c = '/')).reverse)

/-- Modelled from the spec: `ensureTrailingSlash` of the repository's `Util`
module (not under `src/`), used as `path.replace(/\/*$/u, '/')`: remove every
trailing `/` and append exactly one. -/
def ensureTrailingSlashL (l : List Char) : List Char :=
  trimTrailingSlashesL l ++ ['/']

/-- JavaScript `path.split('/')` on a character list: splits at every `/`,
keeping empty segments. -/
def splitSlashL : List Char → List (List Char)
  | [] => [[]]
  | c :: rest =>
    if c = '/' then [] :: splitSlashL rest
    else
      match splitSlashL rest with
      | [] => [[c]]
      | seg :: segs => (c :: seg) :: segs

/-- `trimTrailingSlashes` on strings. -/
def trimTrailingSlashes (s : String) : String := ⟨trimTrailingSlashesL s.data⟩

/-- `ensureTrailingSlash` on strings. -/
def ensureTrailingSlash (s : String) : String := ⟨ensureTrailingSlashL s.data⟩

/-- JavaScript `s.endsWith('/')`. -/
def endsWithSlash (s : String) : Bool := s.data.getLast? = some '/'

/-- JavaScript `s.startsWith(p)`. -/
def strHasPrefix (s p : String) : Bool := p.data.isPrefixOf s.data

/-- JavaScript `s.endsWith(suffix)`. -/
def strHasSuffix (s suffix : String) : Bool := suffix.data.isSuffixOf s.data

/-- JavaScript `s.slice(n)`. -/
def strDrop (n : Nat) (s : String) : String := ⟨s.data.drop n⟩

/-- `path.split('/')` followed by `.filter(part => part.length > 0)`:
the non-empty segments of a path. -/
def pathSegs (s : String) : List String :=
  ((splitSlashL s.data).filter (fun seg => seg ≠ [])).map (fun seg => (⟨seg⟩ : String))

/-- Modelled from the spec: the Container Manager collaborator's
`parentOf(id) -> id` (`containerManager.getContainer`, not under `src/`):
drop any trailing slashes, then drop the final path segment, keeping the
separator, so that `parentOf "b/a/c/" = "b/a/"` and `parentOf "b/a/x" = "b/a/"`. -/
def parentOf (s : String) : String :=
  ⟨((((trimTrailingSlashesL s.data).reverse.dropWhile (fun c => c ≠ '/'))).reverse)⟩

/-! ## Quads and metadata

`Metadata` is modelled from the spec: the repository's
`RepresentationMetadata` (not under `src/`) per §3 of the spec — an unordered
multimap from (subject, predicate) to value together with a distinguished
subject identifier; `get`/`getAll`/`removeAll` address the quads whose
subject is the metadata's own identifier, and stamping the identifier
re-subjects those quads. -/

/-- An RDF quad restricted to the string-valued form the storage layer uses. -/
structure Quad where
  subj : String
  pred : String
  obj : String
  deriving DecidableEq, Repr

/-- Namespace-qualified predicate and type constants (`UriConstants`,
modelled from the spec §6 as opaque distinct tokens). -/
def RDF.type : String := "rdf:type"

def LDP.contains : String := "ldp:contains"

def LDP.Container : String := "ldp:Container"

def LDP.BasicContainer : String := "ldp:BasicContainer"

def LDP.Resource : String := "ldp:Resource"

def HTTP.slug : String := "http:slug"

def CONTENT_TYPE : String := "ma:contentType"

def INTERNAL_QUADS : String := "internal/quads"

def POSIX.size : String := "posix:size"

def POSIX.mtime : String := "posix:mtime"

def DCTERMS.modified : String := "dc:modified"

/-- Modelled from the spec: `RepresentationMetadata` (§3 Metadata). -/
structure Metadata where
  identifier : String
  quads : List Quad
  deriving DecidableEq, Repr

namespace Metadata

/-- An empty metadata object keyed to an identifier
(`new RepresentationMetadata(path)`). -/
def empty (id : String) : Metadata := ⟨id, []⟩

/-- `metadata.getAll(pred)`: the values of all quads with the metadata's own
identifier as subject and the given predicate. -/
def getAll (m : Metadata) (pred : String) : List String :=
  (m.quads.filter (fun q => q.subj == m.identifier && q.pred == pred)).map (·.obj)

/-- `metadata.get(pred)?.value`. -/
def get (m : Metadata) (pred : String) : Option String :=
  (m.getAll pred).head?

/-- `metadata.removeAll(pred)`. -/
def removeAll (m : Metadata) (pred : String) : Metadata :=
  { m with quads := m.quads.filter (fun q => !(q.subj == m.identifier && q.pred == pred)) }

/-- `metadata.addQuads(qs)`. -/
def addQuads (m : Metadata) (qs : List Quad) : Metadata :=
  { m with quads := m.quads ++ qs }

/-- `metadata.identifier = namedNode(id)`: stamp the subject, re-subjecting
the quads that were about the old identifier. -/
def setIdentifier (m : Metadata) (id : String) : Metadata :=
  ⟨id, m.quads.map (fun q => if q.subj == m.identifier then { q with subj := id } else q)⟩

/-- `metadata.set(pred, value)`. -/
def set (m : Metadata) (pred value : String) : Metadata :=
  (m.removeAll pred).addQuads [⟨m.identifier, pred, value⟩]

end Metadata

/-! ## Byte streams and representations -/

/-- A single-consumption byte sequence (Node `Readable`): the chunks it
yields, an oracle for what the RDF parser would produce from it (modelled
from the spec: the Metadata Facade's `parseQuads` is an external
collaborator), whether it has already been drained, and whether it errors. -/
structure DataStream where
  chunks : List Nat
  asQuads : Option (List Quad)
  drained : Bool
  err : Option String
  deriving DecidableEq, Repr

/-- `streamifyArray(bytes)`: a live stream over materialized bytes. -/
def streamifyBytes (bs : List Nat) : DataStream := ⟨bs, none, false, none⟩

/-- `arrayifyStream(data)`: drain a stream into an array; rejects if the
stream errors, and a previously drained stream yields nothing. -/
def arrayifyStream (s : DataStream) : Except Err (List Nat) :=
  match s.err with
  | some m => .error (.streamErr m)
  | none => .ok (if s.drained then [] else s.chunks)

/-- A representation: a byte stream plus metadata (§3). -/
structure Representation where
  binary : Bool
  data : DataStream
  metadata : Metadata
  deriving DecidableEq, Repr

/-! ## Metadata Facade (`MetadataController`)

Modelled from the spec (§6): the facade is an external collaborator with
operations `generateResourceQuads`, `generateContainerContainsResourceQuads`,
`parseQuads` and `serializeQuads`. Serialization uses a concrete
length-prefixed encoding so that it is executable and decodable. -/

namespace MetadataController

/-- `generateResourceQuads(subject, isContainer)`: the RDF-type marker quads —
container, basic-container and generic-resource types for containers, the
generic-resource type otherwise. -/
def generateResourceQuads (subject : String) (isContainer : Bool) : List Quad :=
  if isContainer then
    [⟨subject, RDF.type, LDP.Container⟩,
     ⟨subject, RDF.type, LDP.BasicContainer⟩,
     ⟨subject, RDF.type, LDP.Resource⟩]
  else
    [⟨subject, RDF.type, LDP.Resource⟩]

/-- `generateContainerContainsResourceQuads(subject, childURIs)`: one
containment edge per child. -/
def generateContainerContainsResourceQuads (subject : String) (childURIs : List String) :
    List Quad :=
  childURIs.map (fun child => ⟨subject, LDP.contains, child⟩)

/-- `parseQuads(byteStream)` on a live stream, via the stream's parse oracle;
a stream error or unparseable content is a failure. -/
def parseQuadsStream (s : DataStream) : Except Err (List Quad) :=
  match s.err with
  | some m => .error (.streamErr m)
  | none =>
    match s.asQuads with
    | some qs => .ok qs
    | none => .error .parseError

/-- Length-prefixed encoding of one string for `serializeQuads`. -/
def encodeStr (s : String) : List Nat :=
  s.data.length :: s.data.map Char.toNat

/-- Length-prefixed encoding of a quad list for `serializeQuads`. -/
def encodeQuads (qs : List Quad) : List Nat :=
  qs.flatMap (fun q => encodeStr q.subj ++ encodeStr q.pred ++ encodeStr q.obj)

/-- `serializeQuads(quads) -> byteStream`. -/
def serializeQuads (qs : List Quad) : DataStream :=
  ⟨encodeQuads qs, some qs, false, none⟩

/-- Decode one length-prefixed string. -/
def decodeStr (l : List Nat) : Option (String × List Nat) :=
  match l with
  | [] => none
  | n :: rest =>
    if n ≤ rest.length then
      some (⟨(rest.take n).map Char.ofNat⟩, rest.drop n)
    else none

/-- Decode the serialized form of a quad list, with fuel bounded by the
input length. -/
def decodeQuadsAux : Nat → List Nat → Option (List Quad)
  | _, [] => some []
  | 0, _ :: _ => none
  | fuel + 1, l@(_ :: _) => do
    let (s, l) ← decodeStr l
    let (p, l) ← decodeStr l
    let (o, l) ← decodeStr l
    let qs ← decodeQuadsAux fuel l
    pure (⟨s, p, o⟩ :: qs)

/-- `parseQuads` applied to stored file bytes (used for sidecar files):
decodes the length-prefixed serialization, failing on malformed content. -/
def decodeQuadBytes (l : List Nat) : Except Err (List Quad) :=
  match decodeQuadsAux l.length l with
  | some qs => .ok qs
  | none => .error .parseError

end MetadataController

/-! ## InMemoryDataAccessor

Embedding of `src/storage/accessors/InMemoryDataAccessor` (provided as
`src/unnamed/part_001`). The backend is a tree of cache entries rooted at the
configured base; identifiers are resolved by splitting the path below the
base into non-empty segments. JavaScript's in-place mutation through the
`getParentEntry` alias is modelled by path-based functional update, including
the root workaround (mutations addressed at the root land on a synthetic
wrapper and are lost). -/

/-- A cache entry: either a data entry (materialized re-readable bytes plus
optional metadata) or a container entry (named children plus optional
metadata). -/
inductive CacheEntry where
  | dataEntry (data : List Nat) (metadata : Option Metadata)
  | containerEntry (entries : List (String × CacheEntry)) (metadata : Option Metadata)
  deriving Repr

/-- The in-memory store state: the root `ContainerEntry`'s children and
metadata (`this.store`). -/
structure MemStore where
  entries : List (String × CacheEntry)
  metadata : Option Metadata
  deriving Repr

namespace InMemoryDataAccessor

/-- JavaScript object lookup `entries[name]` on the insertion-ordered map. -/
def lookupEntry (es : List (String × CacheEntry)) (k : String) : Option CacheEntry :=
  match es.find? (fun p => p.1 == k) with
  | some p => some p.2
  | none => none

/-- JavaScript object write `entries[name] = e`: replace in place if the name
exists, otherwise append. -/
def insertEntry (es : List (String × CacheEntry)) (k : String) (e : CacheEntry) :
    List (String × CacheEntry) :=
  if (es.find? (fun p => p.1 == k)).isSome then
    es.map (fun p => if p.1 == k then (k, e) else p)
  else
    es ++ [(k, e)]

/-- JavaScript `delete entries[name]`. -/
def removeEntry (es : List (String × CacheEntry)) (k : String) :
    List (String × CacheEntry) :=
  es.filter (fun p => !(p.1 == k))

/-- `isDataEntry(entry)`: `Boolean((entry as DataEntry).data)`. -/
def isDataEntry : CacheEntry → Bool
  | .dataEntry _ _ => true
  | .containerEntry _ _ => false

/-- The path segments of an identifier below the base:
`identifier.path.slice(base.length).split('/').filter(part => part.length > 0)`. -/
def memParts (base path : String) : List String :=
  pathSegs (strDrop base.length path)

/-- Walk of `getParentEntry` followed by the child lookup of `getEntry`:
resolve all but the last segment through container entries, then look up the
last segment in the resulting parent. The empty-segment case yields the root
itself (`getEntry` through the root workaround). -/
def getEntryAux : List (String × CacheEntry) → List String → Except Err CacheEntry
  | _, [] => .error .notFound
  | es, [n] =>
    match lookupEntry es n with
    | some e => .ok e
    | none => .error .notFound
  | es, p :: rest =>
    match lookupEntry es p with
    | some (.containerEntry es' _) => getEntryAux es' rest
    | _ => .error .notFound

/-- `getEntry(identifier)`. -/
def getEntry (base : String) (s : MemStore) (path : String) : Except Err CacheEntry :=
  match memParts base path with
  | [] => .ok (.containerEntry s.entries s.metadata)
  | parts => getEntryAux s.entries parts

/-- Check that `getParentEntry` succeeds without producing the target:
resolve all but the last segment through container entries. -/
def resolveParentOk : List (String × CacheEntry) → List String → Except Err Unit
  | _, [] => .ok ()
  | _, [_] => .ok ()
  | es, p :: rest =>
    match lookupEntry es p with
    | some (.containerEntry es' _) => resolveParentOk es' rest
    | _ => .error .notFound

/-- Path-based form of `parent.entries[name] = e` writing through the
`getParentEntry` alias. The empty-segment case is the root workaround: the
assignment lands on a synthetic wrapper and the store is unchanged. -/
def setEntryAux (e : CacheEntry) : List (String × CacheEntry) →
    List String → Except Err (List (String × CacheEntry))
  | es, [] => .ok es
  | es, [n] => .ok (insertEntry es n e)
  | es, p :: rest =>
    match lookupEntry es p with
    | some (.containerEntry es' md) =>
      match setEntryAux e es' rest with
      | .ok es'' => .ok (insertEntry es p (.containerEntry es'' md))
      | .error err => .error err
    | _ => .error .notFound

/-- `setEntryAux` lifted to the store state. -/
def setEntryAt (base : String) (s : MemStore) (path : String) (e : CacheEntry) :
    Except Err MemStore :=
  match memParts base path with
  | [] => .ok s
  | parts =>
    match setEntryAux e s.entries parts with
    | .ok es => .ok { s with entries := es }
    | .error err => .error err

/-- Path-based form of `delete parent.entries[name]` with the not-found check
of `deleteResource`; the empty-segment case is the root workaround (the
wrapper's `root` entry exists, so the delete succeeds without effect). -/
def deleteEntryAux : List (String × CacheEntry) →
    List String → Except Err (List (String × CacheEntry))
  | es, [] => .ok es
  | es, [n] =>
    match lookupEntry es n with
    | some _ => .ok (removeEntry es n)
    | none => .error .notFound
  | es, p :: rest =>
    match lookupEntry es p with
    | some (.containerEntry es' md) =>
      match deleteEntryAux es' rest with
      | .ok es'' => .ok (insertEntry es p (.containerEntry es'' md))
      | .error err => .error err
    | _ => .error .notFound

/-- `generateMetadata(identifier, entry)`: the stored metadata (or an empty
one keyed to the identifier), plus one containment edge per child for
container entries — the child URI is the requested identifier concatenated
with the child name, suffixed with `/` iff the child is a container entry. -/
def generateMetadata (path : String) (e : CacheEntry) : Metadata :=
  let md := match e with
    | .dataEntry _ (some m) => m
    | .dataEntry _ none => Metadata.empty path
    | .containerEntry _ (some m) => m
    | .containerEntry _ none => Metadata.empty path
  match e with
  | .dataEntry _ _ => md
  | .containerEntry es _ =>
    let childNames := es.map (fun p =>
      path ++ p.1 ++ (if isDataEntry p.2 then "" else "/"))
    md.addQuads (MetadataController.generateContainerContainsResourceQuads md.identifier childNames)

/-- `canHandle()`: all data is supported. -/
def canHandle (_r : Representation) : Except Err Unit := .ok ()

/-- `getData(identifier)`: fails unless the target is a data entry; returns a
fresh stream over the entry's content and stores back an equivalent fresh
stream (`copyData`). -/
def getData (base : String) (s : MemStore) (path : String) :
    Except Err (DataStream × MemStore) :=
  match getEntry base s path with
  | .error e => .error e
  | .ok (.containerEntry _ _) => .error .notFound
  | .ok (.dataEntry bs md) =>
    match setEntryAt base s path (.dataEntry bs md) with
    | .ok s' => .ok (streamifyBytes bs, s')
    | .error e => .error e

/-- `getMetadata(identifier)`: requires the trailing-slash shape of the
identifier to disagree with `isDataEntry` of the resolved entry. -/
def getMetadata (base : String) (s : MemStore) (path : String) : Except Err Metadata :=
  match getEntry base s path with
  | .error e => .error e
  | .ok e =>
    if isDataEntry e = endsWithSlash path then .error .notFound
    else .ok (generateMetadata path e)

/-- `getNormalizedMetadata(identifier)`: resolves the entry (slash shape has
no effect on resolution) and generates metadata keyed to the identifier as
requested — note: this does not delegate to `NormalizedDataAccessor`. -/
def getNormalizedMetadata (base : String) (s : MemStore) (path : String) :
    Except Err Metadata :=
  match getEntry base s path with
  | .error e => .error e
  | .ok e => .ok (generateMetadata path e)

/-- `writeDataResource(identifier, data, metadata)`: resolve the parent, then
drain the stream into an owned copy and store it as a new data entry. -/
def writeDataResource (base : String) (s : MemStore) (path : String)
    (data : DataStream) (md : Option Metadata) : Except Err Unit × MemStore :=
  match resolveParentOk s.entries (memParts base path) with
  | .error e => (.error e, s)
  | .ok () =>
    match arrayifyStream data with
    | .error e => (.error e, s)
    | .ok bs =>
      match setEntryAt base s path (.dataEntry bs md) with
      | .ok s' => (.ok (), s')
      | .error e => (.error e, s)

/-- `writeContainer(identifier, metadata)`: replace (or create) a container
entry with an empty child map and the given metadata. -/
def writeContainer (base : String) (s : MemStore) (path : String)
    (md : Option Metadata) : Except Err Unit × MemStore :=
  match setEntryAt base s path (.containerEntry [] md) with
  | .ok s' => (.ok (), s')
  | .error e => (.error e, s)

/-- `modifyResource()`: not supported. -/
def modifyResource (_s : MemStore) : Except Err Unit := .error .notImplemented

/-- `deleteResource(identifier)`: fails not-found if the name is absent from
the parent's child map, otherwise removes it. -/
def deleteResource (base : String) (s : MemStore) (path : String) :
    Except Err Unit × MemStore :=
  match memParts base path with
  | [] => (.ok (), s)
  | parts =>
    match deleteEntryAux s.entries parts with
    | .ok es => (.ok (), { s with entries := es })
    | .error e => (.error e, s)

/-- The constructor's initial store: empty, with base-level structural
metadata pre-populated. -/
def init (base : String) : MemStore :=
  let b := ensureTrailingSlash base
  { entries := [],
    metadata := some ((Metadata.empty b).addQuads
      (MetadataController.generateResourceQuads b true)) }

end InMemoryDataAccessor

/-! ## NormalizedDataAccessor (shared base) -/

namespace NormalizedDataAccessor

/-- Embedding of `NormalizedDataAccessor.getNormalizedMetadata` as a function
of the backend's `getMetadata`: try as given; on a not-found failure retry
once with the trailing slash toggled; propagate any other failure. -/
def getNormalizedMetadataOf (getMd : String → Except Err Metadata) (path : String) :
    Except Err Metadata :=
  let hasSlash := endsWithSlash path
  match getMd path with
  | .ok m => .ok m
  | .error .notFound =>
    getMd (if hasSlash then trimTrailingSlashes path else ensureTrailingSlash path)
  | .error e => .error e

end NormalizedDataAccessor

/-! ## Filesystem model and FileDataAccessor

Embedding of `src/storage/accessors/FileDataAccessor`. The file system is a
tree of files and directories addressed by `/`-separated paths (resolved, as
in the repository's tests, by splitting on `/` and dropping empty segments,
so a trailing slash does not affect resolution). File contents carry an
mtime; the clock is modelled as constant `0`. The Identifier Mapper
(`ExtensionBasedMapper`) is an external collaborator and is modelled from
the spec (§6): URL = base + relative path, file path = root + `/` + relative
path, content type constant. -/

/-- A filesystem entry: regular file with byte content, or directory. -/
inductive FSEntry where
  | file (content : List Nat) (mtime : Nat)
  | dir (entries : List (String × FSEntry)) (mtime : Nat)
  deriving Repr

/-- The filesystem state: the top-level directory entries. -/
abbrev FS := List (String × FSEntry)

namespace FileDataAccessor

/-- `lstat`-style stats of an entry. -/
structure Stats where
  isFile : Bool
  isDirectory : Bool
  size : Nat
  mtime : Nat
  deriving DecidableEq, Repr

/-- Stats of a filesystem entry; directory size is reported as 0. -/
def statsOf : FSEntry → Stats
  | .file c t => ⟨true, false, c.length, t⟩
  | .dir _ t => ⟨false, true, 0, t⟩

/-- Path segments used for filesystem resolution. -/
def fsParts (path : String) : List String := pathSegs path

/-- Assoc-list lookup in a directory listing. -/
def fsLookup (es : List (String × FSEntry)) (k : String) : Option FSEntry :=
  match es.find? (fun p => p.1 == k) with
  | some p => some p.2
  | none => none

/-- Replace-or-append in a directory listing. -/
def fsInsert (es : List (String × FSEntry)) (k : String) (e : FSEntry) :
    List (String × FSEntry) :=
  if (es.find? (fun p => p.1 == k)).isSome then
    es.map (fun p => if p.1 == k then (k, e) else p)
  else
    es ++ [(k, e)]

/-- Remove from a directory listing. -/
def fsRemove (es : List (String × FSEntry)) (k : String) : List (String × FSEntry) :=
  es.filter (fun p => !(p.1 == k))

/-- Resolve a path to an entry; `none` when it does not resolve. -/
def fsFindAux : List (String × FSEntry) → List String → Option FSEntry
  | _, [] => none
  | es, [n] => fsLookup es n
  | es, p :: rest =>
    match fsLookup es p with
    | some (.dir es' _) => fsFindAux es' rest
    | _ => none

/-- Resolve a path string in the filesystem. -/
def fsFind (fs : FS) (path : String) : Option FSEntry := fsFindAux fs (fsParts path)

/-- `fs.unlink(path)`: remove a file; `ENOENT` when the path does not
resolve, `EISDIR` when it is a directory. -/
def fsUnlinkAux : List (String × FSEntry) →
    List String → Except SysError (List (String × FSEntry))
  | _, [] => .error .ENOENT
  | es, [n] =>
    match fsLookup es n with
    | some (.file _ _) => .ok (fsRemove es n)
    | some (.dir _ _) => .error .EISDIR
    | none => .error .ENOENT
  | es, p :: rest =>
    match fsLookup es p with
    | some (.dir es' t) =>
      match fsUnlinkAux es' rest with
      | .ok es'' => .ok (fsInsert es p (.dir es'' t))
      | .error e => .error e
    | _ => .error .ENOENT

/-- `fs.rmdir(path)`: remove an empty directory; `ENOTEMPTY` when non-empty,
`ENOTDIR` on a file, `ENOENT` when absent. -/
def fsRmdirAux : List (String × FSEntry) →
    List String → Except SysError (List (String × FSEntry))
  | _, [] => .error .ENOENT
  | es, [n] =>
    match fsLookup es n with
    | some (.dir [] _) => .ok (fsRemove es n)
    | some (.dir (_ :: _) _) => .error .ENOTEMPTY
    | some (.file _ _) => .error .ENOTDIR
    | none => .error .ENOENT
  | es, p :: rest =>
    match fsLookup es p with
    | some (.dir es' t) =>
      match fsRmdirAux es' rest with
      | .ok es'' => .ok (fsInsert es p (.dir es'' t))
      | .error e => .error e
    | _ => .error .ENOENT

/-- `fs.mkdir(path)`: create a directory; `EEXIST` when something already
exists there, `ENOENT` when the parent does not resolve. -/
def fsMkdirAux : List (String × FSEntry) →
    List String → Except SysError (List (String × FSEntry))
  | _, [] => .error .ENOENT
  | es, [n] =>
    match fsLookup es n with
    | some _ => .error .EEXIST
    | none => .ok (fsInsert es n (.dir [] 0))
  | es, p :: rest =>
    match fsLookup es p with
    | some (.dir es' t) =>
      match fsMkdirAux es' rest with
      | .ok es'' => .ok (fsInsert es p (.dir es'' t))
      | .error e => .error e
    | _ => .error .ENOENT

/-- `createWriteStream(path)` target creation: replace or create a file;
`EISDIR` when a directory is there, `ENOENT` when the parent does not
resolve. -/
def fsPutFileAux (content : List Nat) : List (String × FSEntry) →
    List String → Except SysError (List (String × FSEntry))
  | _, [] => .error .ENOENT
  | es, [n] =>
    match fsLookup es n with
    | some (.dir _ _) => .error .EISDIR
    | _ => .ok (fsInsert es n (.file content 0))
  | es, p :: rest =>
    match fsLookup es p with
    | some (.dir es' t) =>
      match fsPutFileAux content es' rest with
      | .ok es'' => .ok (fsInsert es p (.dir es'' t))
      | .error e => .error e
    | _ => .error .ENOENT

/-- Modelled from the spec: the Identifier Mapper's
`mapUrlToFilePath` (§6) — identifiers outside the base do not resolve. -/
def mapUrlToFilePath (base root : String) (id : String) : Except Err String :=
  if strHasPrefix id base then .ok (root ++ "/" ++ strDrop base.length id)
  else .error .notFound

/-- Modelled from the spec: the Identifier Mapper's `mapFilePathToUrl` (§6). -/
def mapFilePathToUrl (base root : String) (path : String) : String :=
  base ++ strDrop (root.length + 1) path

/-- Modelled from the spec: the Identifier Mapper's content-type inference
(§6), collapsed to a constant as the store layer treats it opaquely. -/
def getContentTypeFromExtension (_path : String) : String :=
  "application/octet-stream"

/-- `getMetadataPath(path)`. -/
def getMetadataPath (path : String) : String := path ++ ".meta"

/-- `isMetadataPath(path)`. -/
def isMetadataPath (path : String) : Bool := strHasSuffix path ".meta"

/-- `posix.join` of a directory path and a child name. -/
def joinPath (a b : String) : String :=
  if a.data.getLast? = some '/' then a ++ b else a ++ "/" ++ b

/-- `getStats(path)`: `lstat` with `ENOENT` mapped to not-found. -/
def getStats (fs : FS) (path : String) : Except Err Stats :=
  match fsFind fs path with
  | some e => .ok (statsOf e)
  | none => .error .notFound

/-- `canHandle(representation)`: only binary data is supported. -/
def canHandle (r : Representation) : Except Err Unit :=
  if r.binary then .ok () else .error .unsupportedMediaType

/-- `writeDataFile(path, data)`: pipe the stream into the file at the path;
the file holds the piped chunks, and a stream error is re-signaled after
the pipe. -/
def writeDataFile (fs : FS) (path : String) (data : DataStream) :
    Except Err Unit × FS :=
  match fsPutFileAux data.chunks fs (fsParts path) with
  | .error e => (.error (.sys e), fs)
  | .ok fs' =>
    match data.err with
    | some m => (.error (.streamErr m), fs')
    | none => (.ok (), fs')

/-- `getData(identifier)`: stream of the file's content; not-found when the
path does not resolve or resolves to a directory. -/
def getData (base root : String) (fs : FS) (id : String) : Except Err DataStream :=
  match mapUrlToFilePath base root id with
  | .error e => .error e
  | .ok path =>
    match fsFind fs path with
    | none => .error .notFound
    | some (.file c _) => .ok (streamifyBytes c)
    | some (.dir _ _) => .error .notFound

/-- `getRawMetadata(path)`: parse the sidecar file if it exists; a missing
sidecar contributes nothing, a malformed one is a parse error, and a
directory at the sidecar path is a raw system error. -/
def getRawMetadata (fs : FS) (path : String) : Except Err (List Quad) :=
  match fsFind fs (getMetadataPath path) with
  | none => .ok []
  | some (.file c _) => MetadataController.decodeQuadBytes c
  | some (.dir _ _) => .error (.sys .EISDIR)

/-- `generatePosixQuads(subject, stats)`: size and modification time (the
ISO-8601 and epoch forms are both rendered from the model's integer
clock). -/
def generatePosixQuads (subject : String) (stats : Stats) : List Quad :=
  [⟨subject, POSIX.size, toString stats.size⟩,
   ⟨subject, DCTERMS.modified, toString stats.mtime⟩,
   ⟨subject, POSIX.mtime, toString stats.mtime⟩]

/-- `getBaseMetadata(identifier, path, stats, isContainer)`. -/
def getBaseMetadata (fs : FS) (id path : String) (stats : Stats) (isContainer : Bool) :
    Except Err Metadata :=
  match getRawMetadata fs path with
  | .error e => .error e
  | .ok raw =>
    let md := (Metadata.empty id).addQuads raw
    let md := md.addQuads (MetadataController.generateResourceQuads md.identifier isContainer)
    .ok (md.addQuads (generatePosixQuads md.identifier stats))

/-- `getChildMetadataQuads(identifier, path)`: per-child resource and POSIX
quads plus the aggregated containment edges; sidecar entries are hidden. -/
def getChildMetadataQuads (base root : String) (id path : String)
    (children : List (String × FSEntry)) : List Quad :=
  let visible := children.filter (fun p => !(isMetadataPath p.1))
  let childURIs := visible.map (fun p =>
    let u := mapFilePathToUrl base root (joinPath path p.1)
    match p.2 with
    | .dir _ _ => ensureTrailingSlash u
    | .file _ _ => u)
  let childQuads := (visible.zip childURIs).flatMap (fun pu =>
    MetadataController.generateResourceQuads pu.2 (statsOf pu.1.2).isDirectory ++
    generatePosixQuads pu.2 (statsOf pu.1.2))
  childQuads ++ MetadataController.generateContainerContainsResourceQuads id childURIs

/-- `getFileMetadata(identifier, path, stats)`. -/
def getFileMetadata (fs : FS) (_base _root : String) (id path : String) (stats : Stats) :
    Except Err Metadata :=
  match getBaseMetadata fs id path stats false with
  | .error e => .error e
  | .ok md => .ok (md.set CONTENT_TYPE (getContentTypeFromExtension path))

/-- `getDirectoryMetadata(identifier, path, stats)`. -/
def getDirectoryMetadata (fs : FS) (base root : String) (id path : String)
    (stats : Stats) (children : List (String × FSEntry)) : Except Err Metadata :=
  match getBaseMetadata fs id path stats true with
  | .error e => .error e
  | .ok md => .ok (md.addQuads (getChildMetadataQuads base root id path children))

/-- `getMetadata(identifier)`: file metadata for a slash-less identifier on a
file, directory metadata for a slashed identifier on a directory, not-found
otherwise. -/
def getMetadata (base root : String) (fs : FS) (id : String) : Except Err Metadata :=
  match mapUrlToFilePath base root id with
  | .error e => .error e
  | .ok path =>
    match fsFind fs path with
    | none => .error .notFound
    | some (.file c t) =>
      if !endsWithSlash id then getFileMetadata fs base root id path (statsOf (.file c t))
      else .error .notFound
    | some (.dir es t) =>
      if endsWithSlash id then getDirectoryMetadata fs base root id path (statsOf (.dir es t)) es
      else .error .notFound

/-- `getNormalizedMetadata(identifier)`: inherited unchanged from
`NormalizedDataAccessor`. -/
def getNormalizedMetadata (base root : String) (fs : FS) (id : String) :
    Except Err Metadata :=
  NormalizedDataAccessor.getNormalizedMetadataOf (getMetadata base root fs) id

/-- `writeDataResource(identifier, data, metadata)`: reject sidecar targets;
persist the stripped metadata to the sidecar when any quads remain; then
stream the body to the primary file, unlinking the sidecar path and
re-signaling on a primary-write failure when a metadata argument was
supplied. -/
def writeDataResource (base root : String) (fs : FS) (id : String)
    (data : DataStream) (md : Option Metadata) : Except Err Unit × FS :=
  match mapUrlToFilePath base root id with
  | .error e => (.error e, fs)
  | .ok path =>
    if isMetadataPath path then (.error .conflict, fs)
    else
      let sidecar : Except Err FS :=
        match md with
        | some m =>
          let m' := m.removeAll RDF.type
          if m'.quads.length > 0 then
            match writeDataFile fs (getMetadataPath path)
                (MetadataController.serializeQuads m'.quads) with
            | (.ok _, fs₁) => .ok fs₁
            | (.error e, _) => .error e
          else .ok fs
        | none => .ok fs
      match sidecar with
      | .error e => (.error e, fs)
      | .ok fs₁ =>
        match writeDataFile fs₁ path data with
        | (.ok _, fs₂) => (.ok (), fs₂)
        | (.error e, fs₂) =>
          match md with
          | some _ =>
            match fsUnlinkAux fs₂ (fsParts (getMetadataPath path)) with
            | .ok fs₃ => (.error e, fs₃)
            | .error u => (.error (.sys u), fs₂)
          | none => (.error e, fs₂)

/-- `writeContainer(identifier, metadata)`: create the directory tolerating
`EEXIST`; persist stripped metadata to the sidecar when any quads remain. -/
def writeContainer (base root : String) (fs : FS) (id : String)
    (md : Option Metadata) : Except Err Unit × FS :=
  match mapUrlToFilePath base root id with
  | .error e => (.error e, fs)
  | .ok path =>
    let made : Except Err FS :=
      match fsMkdirAux fs (fsParts path) with
      | .ok fs₁ => .ok fs₁
      | .error .EEXIST => .ok fs
      | .error e => .error (.sys e)
    match made with
    | .error e => (.error e, fs)
    | .ok fs₁ =>
      match md with
      | some m =>
        let m' := m.removeAll RDF.type
        if m'.quads.length > 0 then
          writeDataFile fs₁ (getMetadataPath path)
            (MetadataController.serializeQuads m'.quads)
        else (.ok (), fs₁)
      | none => (.ok (), fs₁)

/-- `modifyResource()`: not supported. -/
def modifyResource (_fs : FS) : Except Err Unit := .error .notImplemented

/-- `deleteResource(identifier)`: stat the target; unlink the sidecar
tolerating `ENOENT`; then unlink the file (slash-less identifier) or remove
the directory (slashed identifier), failing not-found when the
trailing-slash shape disagrees with the entry's kind. -/
def deleteResource (base root : String) (fs : FS) (id : String) :
    Except Err Unit × FS :=
  match mapUrlToFilePath base root id with
  | .error e => (.error e, fs)
  | .ok path =>
    match getStats fs path with
    | .error e => (.error e, fs)
    | .ok stats =>
      let cleaned : Except Err FS :=
        match fsUnlinkAux fs (fsParts (getMetadataPath path)) with
        | .ok fs₁ => .ok fs₁
        | .error .ENOENT => .ok fs
        | .error e => .error (.sys e)
      match cleaned with
      | .error e => (.error e, fs)
      | .ok fs₁ =>
        if !endsWithSlash id && stats.isFile then
          match fsUnlinkAux fs₁ (fsParts path) with
          | .ok fs₂ => (.ok (), fs₂)
          | .error e => (.error (.sys e), fs₁)
        else if endsWithSlash id && stats.isDirectory then
          match fsRmdirAux fs₁ (fsParts path) with
          | .ok fs₂ => (.ok (), fs₂)
          | .error e => (.error (.sys e), fs₁)
        else (.error .notFound, fs₁)

end FileDataAccessor

/-! ## DataAccessorBasedStore

Embedding of `src/storage/DataAccessorBasedStore` composed with the
in-memory accessor (state `MemStore`). Stateful operations return a result
together with the post-state (errors do not roll state back, as in the
source). `uuid()` draws from explicit fresh-name arguments, and the
recursion of `createRecursiveContainers` is fueled; fuel exhaustion is the
distinguished `Err.fuelExhausted`, shown unreachable for sufficient fuel. -/

namespace DataAccessorBasedStore

/-- `validateIdentifier`: identifiers outside the base are not-found. -/
def validateIdentifier (base id : String) : Except Err Unit :=
  if strHasPrefix id base then .ok () else .error .notFound

/-- `isExistingContainer(metadata)`: container iff some RDF type is the
container or basic-container marker; throws on a resource without type
metadata. -/
def isExistingContainer (m : Metadata) : Except Err Bool :=
  let types := m.getAll RDF.type
  if types.isEmpty then .error .unknownResourceType
  else .ok (types.any (fun t => t == LDP.Container || t == LDP.BasicContainer))

/-- `isNewContainer(metadata, suffix?)`: by metadata type when present,
otherwise by whether the suffix (or the slug) ends in a slash. -/
def isNewContainer (m : Metadata) (suffix : Option String) : Bool :=
  match isExistingContainer m with
  | .ok b => b
  | .error _ =>
    let slug := match suffix with
      | some s => some s
      | none => m.get HTTP.slug
    match slug with
    | some s => endsWithSlash s
    | none => false

/-- `createURI(container, isContainer, slug?)` with the fresh name `uuid()`
would produce; an empty slug is falsy in the source and also falls back to
the fresh name. -/
def createURI (container : String) (isContainer : Bool) (slug : Option String)
    (fresh : String) : String :=
  ensureTrailingSlash container ++
    (match slug with
     | some s => if s = "" then fresh else trimTrailingSlashes s
     | none => fresh) ++
    (if isContainer then "/" else "")

/-- `handleContainerData(representation)`: the body must parse as RDF and
contain no containment triples; the content type is discarded and the parsed
quads are folded into the metadata. -/
def handleContainerData (r : Representation) : Except Err Representation :=
  match MetadataController.parseQuadsStream r.data with
  | .error _ => .error .unsupportedHttp
  | .ok quads =>
    if quads.any (fun q => q.pred == LDP.contains) then .error .conflict
    else .ok { r with metadata := (r.metadata.removeAll CONTENT_TYPE).addQuads quads }

/-- The metadata-stamping and accessor hand-off tail of `writeData`: stamp
the subject to the canonical identifier, append the RDF-type assertions, and
delegate to `writeContainer` or `writeDataResource`. -/
def writeStamped (base : String) (id : String) (r : Representation)
    (isContainer : Bool) (s : MemStore) : Except Err Unit × MemStore :=
  let md := (r.metadata.setIdentifier id).addQuads
    (MetadataController.generateResourceQuads id isContainer)
  if isContainer then
    InMemoryDataAccessor.writeContainer base s id (some md)
  else
    InMemoryDataAccessor.writeDataResource base s id r.data (some md)

/-- `getEmptyContainerRepresentation(container)`: an empty stream (which
parses as zero quads) with metadata keyed to the container. -/
def getEmptyContainerRepresentation (container : String) : Representation :=
  { binary := true,
    data := ⟨[], some [], false, none⟩,
    metadata := Metadata.empty container }

/-- `writeData` when `createContainers` is not requested (as invoked from
`createRecursiveContainers`). -/
def writeDataNC (base : String) (id : String) (r : Representation)
    (isContainer : Bool) (s : MemStore) : Except Err Unit × MemStore :=
  match (if isContainer then handleContainerData r else .ok r) with
  | .error e => (.error e, s)
  | .ok r' => writeStamped base id r' isContainer s

/-- `createRecursiveContainers(container)`: stop when the identifier resolves
to an existing container, conflict when it resolves to a non-container,
and on not-found first ensure the parent chain and then write an empty
container at this level. -/
def createRecursiveContainers (base : String) :
    Nat → String → MemStore → Except Err Unit × MemStore
  | 0, _, s => (.error .fuelExhausted, s)
  | fuel + 1, container, s =>
    match InMemoryDataAccessor.getNormalizedMetadata base s container with
    | .ok m =>
      match isExistingContainer m with
      | .ok true => (.ok (), s)
      | .ok false => (.error .conflict, s)
      | .error e => (.error e, s)
    | .error .notFound =>
      match createRecursiveContainers base fuel (parentOf container) s with
      | (.ok (), s') =>
        writeDataNC base container (getEmptyContainerRepresentation container) true s'
      | (.error e, s') => (.error e, s')
    | .error e => (.error e, s)

/-- `writeData(identifier, representation, isContainer, createContainers)`. -/
def writeData (base : String) (fuel : Nat) (id : String) (r : Representation)
    (isContainer : Bool) (createContainers : Bool) (s : MemStore) :
    Except Err Unit × MemStore :=
  match (if isContainer then handleContainerData r else .ok r) with
  | .error e => (.error e, s)
  | .ok r' =>
    match (if createContainers then createRecursiveContainers base fuel (parentOf id) s
           else (.ok (), s)) with
    | (.ok (), s') => writeStamped base id r' isContainer s'
    | (.error e, s') => (.error e, s')

/-- `addResource(container, representation)` with the fresh names the two
potential `uuid()` draws would produce. -/
def addResource (base : String) (fuel : Nat) (container : String)
    (r : Representation) (fresh₁ fresh₂ : String) (s : MemStore) :
    Except Err String × MemStore :=
  match validateIdentifier base container with
  | .error e => (.error e, s)
  | .ok () =>
    match InMemoryDataAccessor.canHandle r with
    | .error e => (.error e, s)
    | .ok () =>
      let isContainer := isNewContainer r.metadata none
      let slug := r.metadata.get HTTP.slug
      let newID₀ := createURI container isContainer slug fresh₁
      let r' := { r with metadata := r.metadata.removeAll HTTP.slug }
      let parentLookup : Except Err (Option Metadata × String) :=
        match InMemoryDataAccessor.getNormalizedMetadata base s container with
        | .ok pm =>
          let withSlash := ensureTrailingSlash newID₀
          let withoutSlash := trimTrailingSlashes newID₀
          let hit := (pm.getAll LDP.contains).any
            (fun t => t == withSlash || t == withoutSlash)
          .ok (some pm, if hit then createURI container isContainer none fresh₂ else newID₀)
        | .error .notFound =>
          if !endsWithSlash container then .error .notFound
          else .ok (none, newID₀)
        | .error e => .error e
      match parentLookup with
      | .error e => (.error e, s)
      | .ok (parentMetadata, newID) =>
        let containerCheck : Except Err Unit :=
          match parentMetadata with
          | none => .ok ()
          | some pm =>
            match isExistingContainer pm with
            | .error e => .error e
            | .ok true => .ok ()
            | .ok false => .error .methodNotAllowed
        match containerCheck with
        | .error e => (.error e, s)
        | .ok () =>
          match writeData base fuel newID r' isContainer
              (parentMetadata.isNone) s with
          | (.ok (), s') => (.ok newID, s')
          | (.error e, s') => (.error e, s')

/-- `setRepresentation(identifier, representation)`. -/
def setRepresentation (base : String) (fuel : Nat) (id : String)
    (r : Representation) (s : MemStore) : Except Err Unit × MemStore :=
  match validateIdentifier base id with
  | .error e => (.error e, s)
  | .ok () =>
    match InMemoryDataAccessor.canHandle r with
    | .error e => (.error e, s)
    | .ok () =>
      let oldLookup : Except Err (Option Metadata) :=
        match InMemoryDataAccessor.getNormalizedMetadata base s id with
        | .ok m => if m.identifier ≠ id then .error .conflict else .ok (some m)
        | .error .notFound => .ok none
        | .error e => .error e
      match oldLookup with
      | .error e => (.error e, s)
      | .ok oldMetadata =>
        let isContainer := isNewContainer r.metadata (some id)
        let typeCheck : Except Err Unit :=
          match oldMetadata with
          | none => .ok ()
          | some old =>
            match isExistingContainer old with
            | .error e => .error e
            | .ok b => if isContainer ≠ b then .error .conflict else .ok ()
        match typeCheck with
        | .error e => (.error e, s)
        | .ok () =>
          if isContainer ≠ (endsWithSlash id = true) then (.error .unsupportedHttp, s)
          else writeData base fuel id r isContainer (oldMetadata.isNone) s

/-- `deleteResource(identifier)` of the store: root deletion is
method-not-allowed, containers with containment edges are a conflict,
otherwise delegate to the accessor. -/
def deleteResource (base : String) (id : String) (s : MemStore) :
    Except Err Unit × MemStore :=
  match validateIdentifier base id with
  | .error e => (.error e, s)
  | .ok () =>
    if ensureTrailingSlash id = base then (.error .methodNotAllowed, s)
    else
      match InMemoryDataAccessor.getMetadata base s id with
      | .error e => (.error e, s)
      | .ok m =>
        if (m.getAll LDP.contains).length > 0 then (.error .conflict, s)
        else InMemoryDataAccessor.deleteResource base s id

end DataAccessorBasedStore

/-! ## Concrete instantiation and claim-support definitions

The claims are settled for a store configured with the base used throughout
the repository's tests and, for the filesystem backend, the test root
directory. -/

/-- The configured base of the store and both accessors. -/
def tbase : String := "http://test.com/"

/-- The filesystem backend's root file path. -/
def uploadsRoot : String := "uploads"

/-- The non-empty segments of a character list (`split('/')` plus the
non-emptiness filter), the list-level core of `pathSegs`. -/
def segsL (l : List Char) : List (List Char) :=
  (splitSlashL l).filter (fun seg => seg ≠ [])

/-- A well-formed path segment: non-empty and free of separators. -/
def wfSeg (t : String) : Prop := t ≠ "" ∧ '/' ∉ t.data

/-- Container-shaped identifier below the base built from path segments:
`joinSegs ["a", "b"] = "a/b/"`. -/
def joinSegs : List String → String
  | [] => ""
  | t :: rest => t ++ "/" ++ joinSegs rest

/-- The precondition of `createRecursiveContainers`'s termination argument:
the base resolves, through the accessor's own metadata generation, to an
existing container. -/
def rootIsContainer (s : MemStore) : Prop :=
  DataAccessorBasedStore.isExistingContainer
    (InMemoryDataAccessor.generateMetadata tbase (.containerEntry s.entries s.metadata)) = .ok true

/-- The metadata `writeData` stamps on a container created by the
`createRecursiveContainers` cascade at identifier `p`: the empty-container
representation's metadata with the content type stripped, the zero parsed
quads folded in, the subject stamped to `p`, and the container RDF-type
markers appended. -/
def c1md (p : String) : Metadata :=
  ((((Metadata.empty p).removeAll CONTENT_TYPE).addQuads []).setIdentifier p).addQuads
    (MetadataController.generateResourceQuads p true)

/-- The metadata `writeData` stamps on the document of the cascading-creation
scenario: the representation's own metadata re-subjected to the canonical
identifier plus the generic-resource type marker. -/
def c1resourceMd (r : Representation) : Metadata :=
  (r.metadata.setIdentifier "http://test.com/a/b/c/resource").addQuads
    (MetadataController.generateResourceQuads "http://test.com/a/b/c/resource" false)

/-- The cache entry rooted at `c` after the cascading-creation scenario. -/
def c1treeC (r : Representation) : CacheEntry :=
  .containerEntry
    [("resource", .dataEntry r.data.chunks (some (c1resourceMd r)))]
    (some (c1md "http://test.com/a/b/c/"))

/-- The cache entry rooted at `b` after the cascading-creation scenario. -/
def c1treeB (r : Representation) : CacheEntry :=
  .containerEntry [("c", c1treeC r)] (some (c1md "http://test.com/a/b/"))

/-- The cache entry rooted at `a` after the cascading-creation scenario. -/
def c1tree (r : Representation) : CacheEntry :=
  .containerEntry [("b", c1treeB r)] (some (c1md "http://test.com/a/"))

/-- A concrete live representation with untyped metadata, used to instantiate
the cascading-creation scenario. -/
def c1witnessRepr : Representation :=
  { binary := true,
    data := ⟨[7, 8], none, false, none⟩,
    metadata := Metadata.empty "http://x/" }

/-- The `a` entry after the cascade has created `a/` only. -/
def c1stage1 : CacheEntry :=
  .containerEntry [] (some (c1md "http://test.com/a/"))

/-- The `a` entry after the cascade has created `a/` and `a/b/`. -/
def c1stage2 : CacheEntry :=
  .containerEntry [("b", .containerEntry [] (some (c1md "http://test.com/a/b/")))]
    (some (c1md "http://test.com/a/"))

/-- The `a` entry after the cascade has created `a/`, `a/b/` and `a/b/c/`. -/
def c1stage3 : CacheEntry :=
  .containerEntry
    [("b", .containerEntry [("c", .containerEntry [] (some (c1md "http://test.com/a/b/c/")))]
      (some (c1md "http://test.com/a/b/")))]
    (some (c1md "http://test.com/a/"))

/-! # Lemmas and claim theorems -/

theorem dropWhile_append_of_forall {α : Type} (p : α → Bool) (l₁ l₂ : List α)
    (h : ∀ a ∈ l₁, p a) : (l₁ ++ l₂).dropWhile p = l₂.dropWhile p := by
  induction l₁ with
  | nil => rfl
  | cons a t ih =>
    have ha : p a := h a (List.mem_cons_self a t)
    simp only [List.cons_append, List.dropWhile_cons, ha, if_true]
    exact ih (fun x hx => h x (List.mem_cons_of_mem a hx))

theorem splitSlashL_ne_nil (l : List Char) : splitSlashL l ≠ [] := by
  cases l with
  | nil => simp [splitSlashL]
  | cons c rest =>
    by_cases hc : c = '/'
    · simp [splitSlashL, hc]
    · simp only [splitSlashL, hc, if_false]
      cases h : splitSlashL rest <;> simp

theorem splitSlashL_append (l m : List Char) :
    splitSlashL (l ++ '/' :: m) = splitSlashL l ++ splitSlashL m := by
  induction l with
  | nil => simp [splitSlashL]
  | cons c rest ih =>
    by_cases hc : c = '/'
    · simp [splitSlashL, hc, ih]
    · simp only [List.cons_append, splitSlashL, hc, if_false, List.append_eq]
      cases h : splitSlashL rest with
      | nil => exact absurd h (splitSlashL_ne_nil rest)
      | cons seg segs => rw [ih, h]; rfl

theorem splitSlashL_no_slash (l : List Char) (h : '/' ∉ l) : splitSlashL l = [l] := by
  induction l with
  | nil => rfl
  | cons c rest ih =>
    have hc : ¬ c = '/' := fun hx => h (hx ▸ List.mem_cons_self c rest)
    have hrest : '/' ∉ rest := fun hm => h (List.mem_cons_of_mem c hm)
    simp only [splitSlashL, hc, if_false, ih hrest]

theorem segsL_append_slash (l : List Char) : segsL (l ++ ['/']) = segsL l := by
  have h : l ++ ['/'] = l ++ '/' :: ([] : List Char) := rfl
  simp [segsL, h, splitSlashL_append, splitSlashL]

theorem segsL_append_replicate (l : List Char) (k : Nat) :
    segsL (l ++ List.replicate k '/') = segsL l := by
  induction k generalizing l with
  | zero => simp
  | succ n ih =>
    have h : l ++ List.replicate (n + 1) '/' = (l ++ ['/']) ++ List.replicate n '/' := by
      simp [List.replicate_succ, List.append_assoc]
    rw [h, ih, segsL_append_slash]

theorem trim_decomposition (l : List Char) :
    l = trimTrailingSlashesL l ++
      List.replicate (l.reverse.takeWhile (fun c => c = '/')).length '/' := by
  have hsplit := List.takeWhile_append_dropWhile (p := fun c => decide (c = '/')) (l := l.reverse)
  have hrep : l.reverse.takeWhile (fun c => decide (c = '/')) =
      List.replicate (l.reverse.takeWhile (fun c => decide (c = '/'))).length '/' := by
    apply List.eq_replicate_of_mem
    intro a ha
    have := List.mem_takeWhile_imp ha
    simpa using this
  conv_lhs => rw [← List.reverse_reverse l, ← hsplit]
  rw [List.reverse_append]
  simp only [trimTrailingSlashesL]
  rw [hrep]
  simp [List.reverse_replicate]

theorem segsL_trim (l : List Char) : segsL (trimTrailingSlashesL l) = segsL l := by
  conv_rhs => rw [trim_decomposition l]
  rw [segsL_append_replicate]

theorem segsL_ensure (l : List Char) : segsL (ensureTrailingSlashL l) = segsL l := by
  rw [ensureTrailingSlashL, segsL_append_slash, segsL_trim]

theorem strData_append (a b : String) : (a ++ b).data = a.data ++ b.data := by
  cases a; cases b; rfl

theorem string_ne_empty_data {t : String} (h : t ≠ "") : t.data ≠ [] := by
  intro hd
  apply h
  cases t
  simp only at hd
  rw [hd]

theorem trimTrailingSlashesL_append_seg (x t : List Char) (htne : t ≠ [])
    (ht : '/' ∉ t) : trimTrailingSlashesL ((x ++ t) ++ ['/']) = x ++ t := by
  obtain ⟨c, t', hct⟩ : ∃ c t', t.reverse = c :: t' := by
    cases hrev : t.reverse with
    | nil => exact absurd (by simpa using hrev) htne
    | cons c t' => exact ⟨c, t', rfl⟩
  have hc : ¬ c = '/' := by
    intro hceq
    apply ht
    have hmem : c ∈ t.reverse := hct ▸ List.mem_cons_self c t'
    rw [← hceq]
    simpa using hmem
  unfold trimTrailingSlashesL
  have hrev : ((x ++ t) ++ ['/']).reverse = '/' :: (t.reverse ++ x.reverse) := by simp
  rw [hrev, List.dropWhile_cons]
  simp only [decide_eq_true_eq, if_pos rfl]
  rw [hct, List.cons_append, List.dropWhile_cons]
  simp only [decide_eq_true_eq, hc, if_false]
  rw [← List.cons_append, ← hct]
  simp

theorem parentOf_append_seg (x t : String) (hx : x.data.getLast? = some '/')
    (ht1 : t ≠ "") (ht2 : '/' ∉ t.data) : parentOf (x ++ t ++ "/") = x := by
  have hdata : (x ++ t ++ "/").data = (x.data ++ t.data) ++ ['/'] := by
    rw [strData_append, strData_append]
  obtain ⟨xr, hxr⟩ : ∃ xr, x.data.reverse = '/' :: xr := by
    cases hrev : x.data.reverse with
    | nil =>
      rw [← List.head?_reverse, hrev] at hx
      simp at hx
    | cons c t' =>
      rw [← List.head?_reverse, hrev] at hx
      simp at hx
      exact ⟨t', by rw [hx]⟩
  unfold parentOf
  rw [hdata, trimTrailingSlashesL_append_seg x.data t.data (string_ne_empty_data ht1) ht2]
  rw [List.reverse_append]
  rw [dropWhile_append_of_forall _ t.data.reverse x.data.reverse
    (fun a ha => by
      have : a ∈ t.data := by simpa using ha
      simp only [decide_eq_true_eq]
      intro haeq
      exact ht2 (haeq ▸ this))]
  rw [hxr, List.dropWhile_cons]
  simp only [decide_eq_true_eq, not_true, if_neg (by simp : ¬ ('/' : Char) ≠ '/')]
  rw [← hxr]
  simp

theorem joinSegs_append (l₁ l₂ : List String) :
    (joinSegs (l₁ ++ l₂)).data = (joinSegs l₁).data ++ (joinSegs l₂).data := by
  induction l₁ with
  | nil => simp [joinSegs]
  | cons t rest ih =>
    simp only [List.cons_append, joinSegs, strData_append, List.append_eq, List.append_assoc, ih]

theorem joinSegs_data_cons (t : String) (rest : List String) :
    (joinSegs (t :: rest)).data = t.data ++ '/' :: (joinSegs rest).data := by
  simp only [joinSegs, strData_append]
  simp

theorem getLast?_append_joinSegs (x : String) (l : List String)
    (hx : x.data.getLast? = some '/') :
    (x ++ joinSegs l).data.getLast? = some '/' := by
  induction l generalizing x with
  | nil =>
    have : (x ++ joinSegs []).data = x.data := by
      rw [strData_append]; simp [joinSegs]
    rw [this]; exact hx
  | cons t rest ih =>
    have hstep : (x ++ joinSegs (t :: rest)).data = ((x ++ t ++ "/") ++ joinSegs rest).data := by
      rw [strData_append, joinSegs_data_cons, strData_append, strData_append, strData_append]
      have : ("/" : String).data = ['/'] := rfl
      rw [this]
      simp
    rw [hstep]
    apply ih
    rw [strData_append]
    exact List.getLast?_concat _

theorem parentOf_joinSegs (x : String) (init : List String) (t : String)
    (hx : x.data.getLast? = some '/') (ht1 : t ≠ "") (ht2 : '/' ∉ t.data) :
    parentOf (x ++ joinSegs (init ++ [t])) = x ++ joinSegs init := by
  have harg : (x ++ joinSegs (init ++ [t])).data = ((x ++ joinSegs init) ++ t ++ "/").data := by
    rw [strData_append, joinSegs_append, strData_append, strData_append, strData_append]
    have hsingle : (joinSegs [t]).data = t.data ++ ['/'] := by
      rw [joinSegs_data_cons]; simp [joinSegs]
    rw [hsingle]
    have : ("/" : String).data = ['/'] := rfl
    rw [this]
    simp
  have harg' : x ++ joinSegs (init ++ [t]) = (x ++ joinSegs init) ++ t ++ "/" := by
    cases hq : x ++ joinSegs (init ++ [t])
    cases hr : (x ++ joinSegs init) ++ t ++ "/"
    congr 1
    have := harg
    rw [hq, hr] at this
    exact this
  rw [harg']
  exact parentOf_append_seg _ t (getLast?_append_joinSegs x init hx) ht1 ht2

theorem pathSegs_eq_segsL (s : String) :
    pathSegs s = (segsL s.data).map (fun l => (⟨l⟩ : String)) := rfl

theorem memParts_ensure_eq_trim (p : String) :
    InMemoryDataAccessor.memParts tbase (ensureTrailingSlash p) =
    InMemoryDataAccessor.memParts tbase (trimTrailingSlashes p) := by
  have hlen : tbase.length = 16 := rfl
  unfold InMemoryDataAccessor.memParts strDrop ensureTrailingSlash trimTrailingSlashes
  rw [pathSegs_eq_segsL, pathSegs_eq_segsL, hlen]
  congr 1
  simp only [ensureTrailingSlashL]
  by_cases h : 16 ≤ (trimTrailingSlashesL p.data).length
  · rw [List.drop_append_of_le_length h, segsL_append_slash]
  · have h1 : (trimTrailingSlashesL p.data).length ≤ 16 := le_of_lt (lt_of_not_le h)
    have h2 : (trimTrailingSlashesL p.data ++ ['/']).length ≤ 16 := by
      simp only [List.length_append, List.length_cons, List.length_nil]
      omega
    rw [List.drop_eq_nil_of_le h1, List.drop_eq_nil_of_le h2]

namespace InMemoryDataAccessor

theorem lookupEntry_nil (j : String) : lookupEntry [] j = none := rfl

theorem lookupEntry_cons (k : String) (v : CacheEntry) (E : List (String × CacheEntry))
    (j : String) :
    lookupEntry ((k, v) :: E) j = if k = j then some v else lookupEntry E j := by
  by_cases h : k = j
  · simp [lookupEntry, List.find?, h]
  · have hb : (k == j) = false := beq_eq_false_iff_ne.mpr h
    simp [lookupEntry, List.find?, hb, h]

theorem lookupEntry_append (E L : List (String × CacheEntry)) (j : String) :
    lookupEntry (E ++ L) j =
      match lookupEntry E j with
      | some e => some e
      | none => lookupEntry L j := by
  induction E with
  | nil => simp [lookupEntry_nil]
  | cons a t ih =>
    obtain ⟨k, v⟩ := a
    by_cases h : k = j
    · simp [lookupEntry_cons, h]
    · simp only [List.cons_append, lookupEntry_cons, h, if_false, ih]

theorem lookupEntry_append_left (E L : List (String × CacheEntry)) (j : String)
    (e : CacheEntry) (h : lookupEntry E j = some e) :
    lookupEntry (E ++ L) j = some e := by
  rw [lookupEntry_append, h]

theorem lookupEntry_append_right (E : List (String × CacheEntry)) (j : String)
    (L : List (String × CacheEntry)) (h : lookupEntry E j = none) :
    lookupEntry (E ++ L) j = lookupEntry L j := by
  rw [lookupEntry_append, h]

theorem find?_isSome_eq_lookup_isSome (E : List (String × CacheEntry)) (k : String) :
    (E.find? (fun p => p.1 == k)).isSome = (lookupEntry E k).isSome := by
  cases h : E.find? (fun p => p.1 == k) <;> simp [lookupEntry, h]

theorem insertEntry_of_lookup_none (E : List (String × CacheEntry)) (k : String)
    (v : CacheEntry) (h : lookupEntry E k = none) :
    insertEntry E k v = E ++ [(k, v)] := by
  unfold insertEntry
  rw [find?_isSome_eq_lookup_isSome, h]
  simp

theorem lookup_none_forall (E : List (String × CacheEntry)) (k : String)
    (h : lookupEntry E k = none) : ∀ p ∈ E, ¬ p.1 = k := by
  intro p hp
  have hfind : E.find? (fun p => p.1 == k) = none := by
    unfold lookupEntry at h
    cases hf : E.find? (fun p => p.1 == k) with
    | none => rfl
    | some q => rw [hf] at h; simp at h
  have := List.find?_eq_none.mp hfind p hp
  simpa using this

theorem insertEntry_append_update (E : List (String × CacheEntry)) (k : String)
    (v v' : CacheEntry) (h : lookupEntry E k = none) :
    insertEntry (E ++ [(k, v)]) k v' = E ++ [(k, v')] := by
  unfold insertEntry
  rw [find?_isSome_eq_lookup_isSome, lookupEntry_append, h]
  simp only [lookupEntry_cons, if_pos rfl, Option.isSome_some, if_true]
  rw [List.map_append]
  congr 1
  · have hmap : ∀ p ∈ E, (if p.1 == k then (k, v') else p) = p := by
      intro p hp
      have : ¬ p.1 = k := lookup_none_forall E k h p hp
      simp [this]
    calc E.map (fun p => if p.1 == k then (k, v') else p)
        = E.map id := List.map_congr_left (fun p hp => hmap p hp)
      _ = E := List.map_id E
  · simp

theorem lookup_replaceAll_self (E : List (String × CacheEntry)) (k : String)
    (v : CacheEntry) (h : (lookupEntry E k).isSome) :
    lookupEntry (E.map (fun p => if p.1 == k then (k, v) else p)) k = some v := by
  induction E with
  | nil => simp [lookupEntry_nil] at h
  | cons a t ih =>
    obtain ⟨k', v'⟩ := a
    by_cases hk : k' = k
    · simp only [List.map_cons, hk]
      simp [lookupEntry_cons]
    · have hne : (k' == k) = false := by simp [hk]
      simp only [List.map_cons, hne]
      simp only [Bool.false_eq_true, if_false]
      rw [lookupEntry_cons]
      rw [if_neg hk]
      apply ih
      rw [lookupEntry_cons, if_neg hk] at h
      exact h

theorem lookup_replaceAll_ne (E : List (String × CacheEntry)) (k j : String)
    (v : CacheEntry) (h : j ≠ k) :
    lookupEntry (E.map (fun p => if p.1 == k then (k, v) else p)) j = lookupEntry E j := by
  induction E with
  | nil => simp
  | cons a t ih =>
    obtain ⟨k', v'⟩ := a
    by_cases hk : k' = k
    · simp only [List.map_cons, hk]
      simp only [beq_self_eq_true, if_true]
      rw [lookupEntry_cons, lookupEntry_cons]
      rw [if_neg (fun hkj => h hkj.symm), if_neg (fun hkj => h hkj.symm)]
      exact ih
    · have hne : (k' == k) = false := by simp [hk]
      simp only [List.map_cons, hne]
      simp only [Bool.false_eq_true, if_false]
      rw [lookupEntry_cons, lookupEntry_cons]
      by_cases hkj : k' = j
      · simp [hkj]
      · rw [if_neg hkj, if_neg hkj]
        exact ih

theorem lookupEntry_insertEntry_self (E : List (String × CacheEntry)) (k : String)
    (v : CacheEntry) : lookupEntry (insertEntry E k v) k = some v := by
  unfold insertEntry
  rw [find?_isSome_eq_lookup_isSome]
  by_cases h : (lookupEntry E k).isSome
  · rw [if_pos h]
    exact lookup_replaceAll_self E k v h
  · rw [if_neg h]
    have hnone : lookupEntry E k = none := by
      cases hc : lookupEntry E k with
      | none => rfl
      | some e => rw [hc] at h; simp at h
    rw [lookupEntry_append, hnone]
    simp [lookupEntry_cons]

theorem lookupEntry_insertEntry_ne (E : List (String × CacheEntry)) (k j : String)
    (v : CacheEntry) (h : j ≠ k) :
    lookupEntry (insertEntry E k v) j = lookupEntry E j := by
  unfold insertEntry
  rw [find?_isSome_eq_lookup_isSome]
  by_cases hs : (lookupEntry E k).isSome
  · rw [if_pos hs]
    exact lookup_replaceAll_ne E k j v h
  · rw [if_neg hs]
    rw [lookupEntry_append]
    cases hc : lookupEntry E j with
    | some e => rfl
    | none => rw [lookupEntry_cons, if_neg (fun hkj => h hkj.symm), lookupEntry_nil]

end InMemoryDataAccessor

namespace InMemoryDataAccessor

theorem getEntryAux_after_set (parts : List String) :
    ∀ (es es' : List (String × CacheEntry)) (e : CacheEntry),
      setEntryAux e es parts = .ok es' → parts ≠ [] → getEntryAux es' parts = .ok e := by
  induction parts with
  | nil => intro es es' e _ hne; exact absurd rfl hne
  | cons p rest ih =>
    intro es es' e hset _
    cases rest with
    | nil =>
      simp only [setEntryAux] at hset
      cases hset
      simp [getEntryAux, lookupEntry_insertEntry_self]
    | cons q rrest =>
      simp only [setEntryAux] at hset
      cases hl : lookupEntry es p with
      | none => rw [hl] at hset; simp at hset
      | some entry =>
        cases entry with
        | dataEntry bs md => rw [hl] at hset; simp at hset
        | containerEntry es₀ md =>
          rw [hl] at hset
          simp only at hset
          cases hs : setEntryAux e es₀ (q :: rrest) with
          | error er => rw [hs] at hset; simp at hset
          | ok es₀' =>
            rw [hs] at hset
            simp only at hset
            cases hset
            simp only [getEntryAux, lookupEntry_insertEntry_self]
            exact ih es₀ es₀' e hs (by simp)

theorem setEntryAux_of_getEntryAux (parts : List String) :
    ∀ (es : List (String × CacheEntry)) (e : CacheEntry),
      getEntryAux es parts = .ok e →
      ∀ e', ∃ es', setEntryAux e' es parts = .ok es' := by
  induction parts with
  | nil => intro es e hget _; simp [getEntryAux] at hget
  | cons p rest ih =>
    intro es e hget e'
    cases rest with
    | nil =>
      exact ⟨insertEntry es p e', by simp [setEntryAux]⟩
    | cons q rrest =>
      simp only [getEntryAux] at hget
      cases hl : lookupEntry es p with
      | none => rw [hl] at hget; simp at hget
      | some entry =>
        cases entry with
        | dataEntry bs md => rw [hl] at hget; simp at hget
        | containerEntry es₀ md =>
          rw [hl] at hget
          simp only at hget
          obtain ⟨es₀', hs⟩ := ih es₀ e hget e'
          refine ⟨insertEntry es p (.containerEntry es₀' md), ?_⟩
          simp only [setEntryAux]
          rw [hl]
          simp only
          rw [hs]

theorem deleteEntryAux_of_getEntryAux_err (parts : List String) :
    ∀ (es : List (String × CacheEntry)) (er : Err),
      getEntryAux es parts = .error er → parts ≠ [] →
      deleteEntryAux es parts = .error .notFound := by
  induction parts with
  | nil => intro es er _ hne; exact absurd rfl hne
  | cons p rest ih =>
    intro es er hget _
    cases rest with
    | nil =>
      simp only [getEntryAux] at hget
      simp only [deleteEntryAux]
      cases hl : lookupEntry es p with
      | none => rfl
      | some e => rw [hl] at hget; simp at hget
    | cons q rrest =>
      simp only [getEntryAux] at hget
      simp only [deleteEntryAux]
      cases hl : lookupEntry es p with
      | none => rfl
      | some entry =>
        cases entry with
        | dataEntry bs md => rfl
        | containerEntry es₀ md =>
          rw [hl] at hget
          simp only at hget ⊢
          rw [ih es₀ er hget (by simp)]

end InMemoryDataAccessor

namespace FileDataAccessor

theorem fsUnlinkAux_of_find_none (parts : List String) :
    ∀ es, fsFindAux es parts = none → fsUnlinkAux es parts = .error .ENOENT := by
  induction parts with
  | nil => intro es _; simp [fsUnlinkAux]
  | cons p rest ih =>
    intro es hfind
    cases rest with
    | nil =>
      simp only [fsFindAux] at hfind
      simp only [fsUnlinkAux]
      rw [hfind]
    | cons q rrest =>
      simp only [fsFindAux] at hfind
      simp only [fsUnlinkAux]
      cases hl : fsLookup es p with
      | none => rfl
      | some entry =>
        cases entry with
        | file c t => rfl
        | dir es₀ t =>
          rw [hl] at hfind
          simp only at hfind ⊢
          rw [ih es₀ hfind]

theorem fsUnlinkAux_of_find_file (parts : List String) :
    ∀ es c t, fsFindAux es parts = some (.file c t) →
      ∃ es', fsUnlinkAux es parts = .ok es' := by
  induction parts with
  | nil => intro es c t h; simp [fsFindAux] at h
  | cons p rest ih =>
    intro es c t hfind
    cases rest with
    | nil =>
      simp only [fsFindAux] at hfind
      refine ⟨fsRemove es p, ?_⟩
      simp only [fsUnlinkAux]
      rw [hfind]
    | cons q rrest =>
      simp only [fsFindAux] at hfind
      cases hl : fsLookup es p with
      | none => rw [hl] at hfind; simp at hfind
      | some entry =>
        cases entry with
        | file c' t' => rw [hl] at hfind; simp at hfind
        | dir es₀ t' =>
          rw [hl] at hfind
          simp only at hfind
          obtain ⟨es₀', hs⟩ := ih es₀ c t hfind
          refine ⟨fsInsert es p (.dir es₀' t'), ?_⟩
          simp only [fsUnlinkAux]
          rw [hl]
          simp only
          rw [hs]

end FileDataAccessor

/-! ## Claim C3 -/

/-- C3 counterexample: for the in-memory backend, `getNormalizedMetadata` is
not the shared base algorithm over `getMetadata` — on a container stored at
`c/` queried as `c`, the native method keeps the slash-less identifier and
produces the malformed containment edge `http://test.com/cx`, while the base
algorithm retries with `c/` and produces `http://test.com/c/x`. -/
theorem C3_inMemory_normalized_counterexample :
    InMemoryDataAccessor.getNormalizedMetadata tbase
      ⟨[("c", .containerEntry [("x", .dataEntry [1] none)] none)], none⟩
      "http://test.com/c" ≠
    NormalizedDataAccessor.getNormalizedMetadataOf
      (InMemoryDataAccessor.getMetadata tbase
        ⟨[("c", .containerEntry [("x", .dataEntry [1] none)] none)], none⟩)
      "http://test.com/c" := by
  intro h
  have h1 : InMemoryDataAccessor.getNormalizedMetadata tbase
      ⟨[("c", .containerEntry [("x", .dataEntry [1] none)] none)], none⟩
      "http://test.com/c" =
      .ok ⟨"http://test.com/c",
        [⟨"http://test.com/c", LDP.contains, "http://test.com/cx"⟩]⟩ := rfl
  have h2 : NormalizedDataAccessor.getNormalizedMetadataOf
      (InMemoryDataAccessor.getMetadata tbase
        ⟨[("c", .containerEntry [("x", .dataEntry [1] none)] none)], none⟩)
      "http://test.com/c" =
      .ok ⟨"http://test.com/c/",
        [⟨"http://test.com/c/", LDP.contains, "http://test.com/c/x"⟩]⟩ := rfl
  rw [h1, h2] at h
  exact absurd (Except.ok.inj h) (by decide)

/-- C3 (amended): the filesystem backend's `getNormalizedMetadata` is exactly
the shared base algorithm applied to its `getMetadata` (it inherits it); the
in-memory backend's is not — it resolves the entry ignoring the trailing
slash — but it agrees with the base algorithm whenever `getMetadata` itself
succeeds, and it does succeed (rather than fail) when a container entry
exists at the identifier however the trailing slash is written. -/
theorem C3_getNormalizedMetadata_amended :
    (∀ (fs : FS) (id : String),
      FileDataAccessor.getNormalizedMetadata tbase uploadsRoot fs id =
        NormalizedDataAccessor.getNormalizedMetadataOf
          (FileDataAccessor.getMetadata tbase uploadsRoot fs) id) ∧
    (∀ (s : MemStore) (id : String) (m : Metadata),
      InMemoryDataAccessor.getMetadata tbase s id = .ok m →
      InMemoryDataAccessor.getNormalizedMetadata tbase s id = .ok m) ∧
    (∀ (s : MemStore) (id : String) (es : List (String × CacheEntry))
      (md : Option Metadata),
      InMemoryDataAccessor.getEntry tbase s id = .ok (.containerEntry es md) →
      ∃ m, InMemoryDataAccessor.getNormalizedMetadata tbase s id = .ok m) := by
  refine ⟨fun fs id => rfl, ?_, ?_⟩
  · intro s id m h
    unfold InMemoryDataAccessor.getMetadata at h
    unfold InMemoryDataAccessor.getNormalizedMetadata
    cases hge : InMemoryDataAccessor.getEntry tbase s id with
    | error e => rw [hge] at h; simp at h
    | ok e =>
      rw [hge] at h
      simp only at h
      by_cases hshape : InMemoryDataAccessor.isDataEntry e = endsWithSlash id
      · rw [if_pos hshape] at h; simp at h
      · rw [if_neg hshape] at h
        simp only at h ⊢
        exact h
  · intro s id es md h
    unfold InMemoryDataAccessor.getNormalizedMetadata
    rw [h]
    exact ⟨_, rfl⟩

/-- C3 witness: the amended statement applied to a concrete data entry whose
`getMetadata` succeeds. -/
theorem C3_getNormalizedMetadata_amended_witness :
    InMemoryDataAccessor.getMetadata tbase
      ⟨[("resource", .dataEntry [1] none)], none⟩ "http://test.com/resource" =
      .ok (Metadata.empty "http://test.com/resource") ∧
    InMemoryDataAccessor.getNormalizedMetadata tbase
      ⟨[("resource", .dataEntry [1] none)], none⟩ "http://test.com/resource" =
      .ok (Metadata.empty "http://test.com/resource") :=
  ⟨rfl, C3_getNormalizedMetadata_amended.2.1 _ _ _ rfl⟩

/-! ## Claim C5 -/

/-- C5 counterexample: the in-memory `deleteResource` does not require
slash-shape agreement — deleting a data entry through a trailing-slash
identifier succeeds and removes the entry instead of failing not-found. -/
theorem C5_deleteResource_slash_counterexample :
    (InMemoryDataAccessor.deleteResource tbase
      ⟨[("resource", .dataEntry [1, 2] none)], none⟩ "http://test.com/resource/").1 =
      .ok () ∧
    InMemoryDataAccessor.lookupEntry
      (InMemoryDataAccessor.deleteResource tbase
        ⟨[("resource", .dataEntry [1, 2] none)], none⟩ "http://test.com/resource/").2.entries
      "resource" = none :=
  ⟨rfl, rfl⟩

/-- C5 (amended): the in-memory `deleteResource` fails not-found exactly when
the entry is absent, and it ignores the trailing-slash shape entirely: the
identifier with a trailing slash and the identifier without one delete
identically. -/
theorem C5_deleteResource_amended :
    (∀ (s : MemStore) (id : String),
      InMemoryDataAccessor.deleteResource tbase s (ensureTrailingSlash id) =
      InMemoryDataAccessor.deleteResource tbase s (trimTrailingSlashes id)) ∧
    (∀ (s : MemStore) (id : String) (er : Err),
      InMemoryDataAccessor.getEntry tbase s id = .error er →
      InMemoryDataAccessor.deleteResource tbase s id = (.error .notFound, s)) := by
  constructor
  · intro s id
    unfold InMemoryDataAccessor.deleteResource
    rw [memParts_ensure_eq_trim]
  · intro s id er h
    unfold InMemoryDataAccessor.getEntry at h
    unfold InMemoryDataAccessor.deleteResource
    cases hp : InMemoryDataAccessor.memParts tbase id with
    | nil => rw [hp] at h; simp at h
    | cons a rest =>
      rw [hp] at h
      simp only at h ⊢
      rw [InMemoryDataAccessor.deleteEntryAux_of_getEntryAux_err (a :: rest) s.entries er h
        (by simp)]

/-- C5 witness: the amended statement applied to an absent entry and to a
concrete slash toggle. -/
theorem C5_deleteResource_amended_witness :
    InMemoryDataAccessor.deleteResource tbase (⟨[], none⟩ : MemStore) "http://test.com/missing" =
      (.error .notFound, (⟨[], none⟩ : MemStore)) ∧
    InMemoryDataAccessor.deleteResource tbase (⟨[], none⟩ : MemStore)
      (ensureTrailingSlash "http://test.com/x") =
    InMemoryDataAccessor.deleteResource tbase (⟨[], none⟩ : MemStore)
      (trimTrailingSlashes "http://test.com/x") := by
  constructor
  · exact C5_deleteResource_amended.2 ⟨[], none⟩ "http://test.com/missing" Err.notFound rfl
  · exact C5_deleteResource_amended.1 ⟨[], none⟩ "http://test.com/x"

/-! ## Claim C8 -/

/-- C8: for the in-memory backend, after a data entry is written at an
identifier from a live stream carrying bytes `bs`, two sequential
`getData` calls each return a fresh live stream over the full original
bytes — the second read is not empty or truncated. -/
theorem C8_getData_sequential_reads
    (s : MemStore) (id : String) (bs : List Nat) (q : Option (List Quad))
    (md : Option Metadata) (s₁ : MemStore)
    (hparts : InMemoryDataAccessor.memParts tbase id ≠ [])
    (hw : InMemoryDataAccessor.writeDataResource tbase s id ⟨bs, q, false, none⟩ md =
      (.ok (), s₁)) :
    ∃ s₂ s₃, InMemoryDataAccessor.getData tbase s₁ id = .ok (streamifyBytes bs, s₂) ∧
      InMemoryDataAccessor.getData tbase s₂ id = .ok (streamifyBytes bs, s₃) := by
  unfold InMemoryDataAccessor.writeDataResource at hw
  cases hr : InMemoryDataAccessor.resolveParentOk s.entries (InMemoryDataAccessor.memParts tbase id) with
  | error e => rw [hr] at hw; simp at hw
  | ok u =>
    rw [hr] at hw
    simp only [arrayifyStream] at hw
    have hbs : (if (false = true) then ([] : List Nat) else bs) = bs := rfl
    rw [hbs] at hw
    cases hset : InMemoryDataAccessor.setEntryAt tbase s id (.dataEntry bs md) with
    | error e => rw [hset] at hw; simp at hw
    | ok s' =>
      rw [hset] at hw
      simp only at hw
      have hs₁ : s' = s₁ := by
        cases hw
        rfl
      subst hs₁
      unfold InMemoryDataAccessor.setEntryAt at hset
      cases hp : InMemoryDataAccessor.memParts tbase id with
      | nil => exact absurd hp hparts
      | cons a rest =>
        rw [hp] at hset
        simp only at hset
        cases hsa : InMemoryDataAccessor.setEntryAux (.dataEntry bs md) s.entries (a :: rest) with
        | error e => rw [hsa] at hset; simp at hset
        | ok es₁ =>
          rw [hsa] at hset
          simp only at hset
          cases hset
          have hget₁ : InMemoryDataAccessor.getEntryAux es₁ (a :: rest) = .ok (.dataEntry bs md) :=
            InMemoryDataAccessor.getEntryAux_after_set (a :: rest) s.entries es₁ _ hsa (by simp)
          obtain ⟨es₂, hsa₂⟩ :=
            InMemoryDataAccessor.setEntryAux_of_getEntryAux (a :: rest) es₁ _ hget₁ (.dataEntry bs md)
          have hget₂ : InMemoryDataAccessor.getEntryAux es₂ (a :: rest) = .ok (.dataEntry bs md) :=
            InMemoryDataAccessor.getEntryAux_after_set (a :: rest) es₁ es₂ _ hsa₂ (by simp)
          obtain ⟨es₃, hsa₃⟩ :=
            InMemoryDataAccessor.setEntryAux_of_getEntryAux (a :: rest) es₂ _ hget₂ (.dataEntry bs md)
          refine ⟨{ s with entries := es₂ }, { s with entries := es₃ }, ?_, ?_⟩
          · unfold InMemoryDataAccessor.getData InMemoryDataAccessor.getEntry
            unfold InMemoryDataAccessor.setEntryAt
            rw [hp]
            simp only [hget₁, hsa₂]
          · unfold InMemoryDataAccessor.getData InMemoryDataAccessor.getEntry
            unfold InMemoryDataAccessor.setEntryAt
            rw [hp]
            simp only [hget₂, hsa₃]

/-- C8 witness: the sequential-read property at a concrete write. -/
theorem C8_getData_sequential_reads_witness :
    ∃ s₂ s₃, InMemoryDataAccessor.getData tbase
        (InMemoryDataAccessor.writeDataResource tbase (⟨[], none⟩ : MemStore)
          "http://test.com/resource" ⟨[4, 2], none, false, none⟩ none).2
        "http://test.com/resource" = .ok (streamifyBytes [4, 2], s₂) ∧
      InMemoryDataAccessor.getData tbase s₂ "http://test.com/resource" =
        .ok (streamifyBytes [4, 2], s₃) :=
  C8_getData_sequential_reads (⟨[], none⟩ : MemStore) "http://test.com/resource"
    [4, 2] none none _ (by decide) rfl

/-! ## Claims C4, C10 and C7 -/

theorem sidecar_write_step (c : List Nat) (qq : Option (List Quad)) :
    FileDataAccessor.writeDataFile [("uploads", FSEntry.dir [] 0)]
      "uploads/resource.meta" ⟨c, qq, false, none⟩ =
    (.ok (), [("uploads", FSEntry.dir [("resource.meta", FSEntry.file c 0)] 0)]) := by
  unfold FileDataAccessor.writeDataFile
  have hparts : FileDataAccessor.fsParts "uploads/resource.meta" =
      ["uploads", "resource.meta"] := rfl
  rw [hparts]
  simp [FileDataAccessor.fsPutFileAux, FileDataAccessor.fsLookup,
    FileDataAccessor.fsInsert, List.find?]

theorem primary_write_step (c bs : List Nat) (q : Option (List Quad)) (emsg : String) :
    FileDataAccessor.writeDataFile
      [("uploads", FSEntry.dir [("resource.meta", FSEntry.file c 0)] 0)]
      "uploads/resource" ⟨bs, q, false, some emsg⟩ =
    (.error (.streamErr emsg),
      [("uploads", FSEntry.dir
        [("resource.meta", FSEntry.file c 0), ("resource", FSEntry.file bs 0)] 0)]) := by
  unfold FileDataAccessor.writeDataFile
  have hparts : FileDataAccessor.fsParts "uploads/resource" = ["uploads", "resource"] := rfl
  rw [hparts]
  have hne : ("resource.meta" == "resource") = false := by decide
  simp [FileDataAccessor.fsPutFileAux, FileDataAccessor.fsLookup,
    FileDataAccessor.fsInsert, List.find?, hne]

theorem rollback_unlink_step (c bs : List Nat) :
    FileDataAccessor.fsUnlinkAux
      [("uploads", FSEntry.dir
        [("resource.meta", FSEntry.file c 0), ("resource", FSEntry.file bs 0)] 0)]
      (FileDataAccessor.fsParts (FileDataAccessor.getMetadataPath "uploads/resource")) =
    .ok [("uploads", FSEntry.dir [("resource", FSEntry.file bs 0)] 0)] := by
  have hparts : FileDataAccessor.fsParts
      (FileDataAccessor.getMetadataPath "uploads/resource") =
      ["uploads", "resource.meta"] := rfl
  rw [hparts]
  have hne : ("resource" == "resource.meta") = false := by decide
  simp [FileDataAccessor.fsUnlinkAux, FileDataAccessor.fsLookup,
    FileDataAccessor.fsInsert, FileDataAccessor.fsRemove, List.find?, hne]

/-- C4: for the filesystem backend's `writeDataResource`, when the supplied
metadata still has quads after the RDF-type strip (so the sidecar is
written) and the primary-content stream then fails, the sidecar file is
deleted again and the caller observes the original stream failure. -/
theorem C4_writeDataResource_rollback (m : Metadata) (bs : List Nat)
    (q : Option (List Quad)) (emsg : String)
    (hq : (m.removeAll RDF.type).quads ≠ []) :
    (FileDataAccessor.writeDataResource tbase uploadsRoot [("uploads", FSEntry.dir [] 0)]
      "http://test.com/resource" ⟨bs, q, false, some emsg⟩ (some m)).1 =
      .error (.streamErr emsg) ∧
    FileDataAccessor.fsFind
      (FileDataAccessor.writeDataResource tbase uploadsRoot [("uploads", FSEntry.dir [] 0)]
        "http://test.com/resource" ⟨bs, q, false, some emsg⟩ (some m)).2
      "uploads/resource.meta" = none := by
  have hres : FileDataAccessor.writeDataResource tbase uploadsRoot
      [("uploads", FSEntry.dir [] 0)] "http://test.com/resource"
      ⟨bs, q, false, some emsg⟩ (some m) =
      (.error (.streamErr emsg),
        [("uploads", FSEntry.dir [("resource", FSEntry.file bs 0)] 0)]) := by
    unfold FileDataAccessor.writeDataResource
    have hmap : FileDataAccessor.mapUrlToFilePath tbase uploadsRoot
        "http://test.com/resource" = .ok "uploads/resource" := rfl
    rw [hmap]
    simp only
    have hmp : FileDataAccessor.isMetadataPath "uploads/resource" = false := rfl
    rw [hmp]
    have hlen : (m.removeAll RDF.type).quads.length > 0 := List.length_pos.mpr hq
    simp only [Bool.false_eq_true, if_false, hlen, if_pos hlen]
    have hmeta : FileDataAccessor.getMetadataPath "uploads/resource" =
        "uploads/resource.meta" := rfl
    rw [hmeta]
    unfold MetadataController.serializeQuads
    rw [sidecar_write_step]
    simp only [if_true]
    rw [primary_write_step]
    simp only
    rw [← hmeta, rollback_unlink_step]
  rw [hres]
  constructor
  · rfl
  · have hne : ("resource" == "resource.meta") = false := by decide
    simp [FileDataAccessor.fsFind, FileDataAccessor.fsFindAux, FileDataAccessor.fsLookup,
      List.find?, hne, FileDataAccessor.fsParts]

/-- C4 witness: the rollback at a concrete metadata object with one
non-type quad. -/
theorem C4_writeDataResource_rollback_witness :
    ((⟨"http://test.com/resource",
        [⟨"http://test.com/resource", "likes", "apples"⟩]⟩ : Metadata).removeAll
      RDF.type).quads ≠ [] ∧
    (FileDataAccessor.writeDataResource tbase uploadsRoot [("uploads", FSEntry.dir [] 0)]
      "http://test.com/resource" ⟨[5], none, false, some "error"⟩
      (some ⟨"http://test.com/resource",
        [⟨"http://test.com/resource", "likes", "apples"⟩]⟩)).1 =
      .error (.streamErr "error") ∧
    FileDataAccessor.fsFind
      (FileDataAccessor.writeDataResource tbase uploadsRoot [("uploads", FSEntry.dir [] 0)]
        "http://test.com/resource" ⟨[5], none, false, some "error"⟩
        (some ⟨"http://test.com/resource",
          [⟨"http://test.com/resource", "likes", "apples"⟩]⟩)).2
      "uploads/resource.meta" = none := by
  refine ⟨by decide, ?_, ?_⟩
  · exact (C4_writeDataResource_rollback _ [5] none "error" (by decide)).1
  · exact (C4_writeDataResource_rollback _ [5] none "error" (by decide)).2

/-- C10 (implicit): in the filesystem backend's `writeDataResource`, when a
metadata argument was supplied but stripped to zero quads (so no sidecar was
written), a failing primary-content write still attempts the rollback
unlink, and the caller observes the unlink's `ENOENT` instead of the
original stream failure. -/
theorem C10_rollback_unlink_enoent (m : Metadata) (bs : List Nat)
    (q : Option (List Quad)) (emsg : String)
    (hq : (m.removeAll RDF.type).quads = []) :
    (FileDataAccessor.writeDataResource tbase uploadsRoot [("uploads", FSEntry.dir [] 0)]
      "http://test.com/resource" ⟨bs, q, false, some emsg⟩ (some m)).1 =
      .error (.sys .ENOENT) ∧
    (FileDataAccessor.writeDataResource tbase uploadsRoot [("uploads", FSEntry.dir [] 0)]
      "http://test.com/resource" ⟨bs, q, false, some emsg⟩ (some m)).1 ≠
      .error (.streamErr emsg) := by
  have hres : FileDataAccessor.writeDataResource tbase uploadsRoot
      [("uploads", FSEntry.dir [] 0)] "http://test.com/resource"
      ⟨bs, q, false, some emsg⟩ (some m) =
      (.error (.sys .ENOENT),
        [("uploads", FSEntry.dir [("resource", FSEntry.file bs 0)] 0)]) := by
    unfold FileDataAccessor.writeDataResource
    have hmap : FileDataAccessor.mapUrlToFilePath tbase uploadsRoot
        "http://test.com/resource" = .ok "uploads/resource" := rfl
    rw [hmap]
    simp only
    have hmp : FileDataAccessor.isMetadataPath "uploads/resource" = false := rfl
    rw [hmp]
    have hlen : ¬ ((m.removeAll RDF.type).quads.length > 0) := by
      rw [hq]
      simp
    simp only [Bool.false_eq_true, if_false, if_neg hlen]
    have hprim : FileDataAccessor.writeDataFile [("uploads", FSEntry.dir [] 0)]
        "uploads/resource" ⟨bs, q, false, some emsg⟩ =
        (.error (.streamErr emsg),
          [("uploads", FSEntry.dir [("resource", FSEntry.file bs 0)] 0)]) := by
      unfold FileDataAccessor.writeDataFile
      have hparts : FileDataAccessor.fsParts "uploads/resource" =
          ["uploads", "resource"] := rfl
      rw [hparts]
      simp [FileDataAccessor.fsPutFileAux, FileDataAccessor.fsLookup,
        FileDataAccessor.fsInsert, List.find?]
    rw [hprim]
    simp only
    have hunlink : FileDataAccessor.fsUnlinkAux
        [("uploads", FSEntry.dir [("resource", FSEntry.file bs 0)] 0)]
        (FileDataAccessor.fsParts
          (FileDataAccessor.getMetadataPath "uploads/resource")) =
        .error .ENOENT := by
      have hparts : FileDataAccessor.fsParts
          (FileDataAccessor.getMetadataPath "uploads/resource") =
          ["uploads", "resource.meta"] := rfl
      rw [hparts]
      have hne : ("resource" == "resource.meta") = false := by decide
      simp [FileDataAccessor.fsUnlinkAux, FileDataAccessor.fsLookup, List.find?, hne]
    rw [hunlink]
  rw [hres]
  exact ⟨rfl, by simp⟩

/-- C10 witness: the misdirected rollback at a concrete metadata object
carrying only an RDF-type quad. -/
theorem C10_rollback_unlink_enoent_witness :
    ((⟨"http://test.com/resource",
        [⟨"http://test.com/resource", RDF.type, LDP.Resource⟩]⟩ : Metadata).removeAll
      RDF.type).quads = [] ∧
    (FileDataAccessor.writeDataResource tbase uploadsRoot [("uploads", FSEntry.dir [] 0)]
      "http://test.com/resource" ⟨[5], none, false, some "error"⟩
      (some ⟨"http://test.com/resource",
        [⟨"http://test.com/resource", RDF.type, LDP.Resource⟩]⟩)).1 =
      .error (.sys .ENOENT) := by
  refine ⟨by decide, ?_⟩
  exact (C10_rollback_unlink_enoent _ [5] none "error" (by decide)).1

/-- C7 counterexample: a failing filesystem `deleteResource` can modify the
store — deleting a container whose directory still has a child fails on
`rmdir` (`ENOTEMPTY`), but the container's sidecar metadata file has
already been unlinked. -/
theorem C7_deleteResource_counterexample :
    (∃ e, (FileDataAccessor.deleteResource tbase uploadsRoot
      [("uploads", FSEntry.dir
        [("container", FSEntry.dir
          [(".meta", FSEntry.file [9] 0), ("resource", FSEntry.file [1] 0)] 0)] 0)]
      "http://test.com/container/").1 = .error e) ∧
    FileDataAccessor.fsFind
      (FileDataAccessor.deleteResource tbase uploadsRoot
        [("uploads", FSEntry.dir
          [("container", FSEntry.dir
            [(".meta", FSEntry.file [9] 0), ("resource", FSEntry.file [1] 0)] 0)] 0)]
        "http://test.com/container/").2
      "uploads/container/.meta" = none :=
  ⟨⟨.sys .ENOTEMPTY, rfl⟩, rfl⟩

/-- C7 (amended): a failing filesystem `deleteResource` leaves the
filesystem unmodified provided nothing exists at the sidecar location of
the requested identifier's mapped path; when such a sidecar exists it may
already have been unlinked before the failure (it is removed before the
kind check and before the directory removal). -/
theorem C7_deleteResource_amended (fs : FS) (id path : String) (e : Err)
    (hmap : FileDataAccessor.mapUrlToFilePath tbase uploadsRoot id = .ok path)
    (hmeta : FileDataAccessor.fsFind fs (FileDataAccessor.getMetadataPath path) = none)
    (herr : (FileDataAccessor.deleteResource tbase uploadsRoot fs id).1 = .error e) :
    (FileDataAccessor.deleteResource tbase uploadsRoot fs id).2 = fs := by
  unfold FileDataAccessor.deleteResource FileDataAccessor.getStats at herr ⊢
  rw [hmap] at herr ⊢
  simp only at herr ⊢
  cases hf : FileDataAccessor.fsFind fs path with
  | none => rfl
  | some entry =>
    rw [hf] at herr
    simp only at herr ⊢
    have hclean : FileDataAccessor.fsUnlinkAux fs
        (FileDataAccessor.fsParts (FileDataAccessor.getMetadataPath path)) =
        .error .ENOENT :=
      FileDataAccessor.fsUnlinkAux_of_find_none _ fs hmeta
    rw [hclean] at herr ⊢
    simp only at herr ⊢
    by_cases h1 : (!endsWithSlash id && (FileDataAccessor.statsOf entry).isFile) = true
    · rw [if_pos h1] at herr ⊢
      have hfile : (FileDataAccessor.statsOf entry).isFile = true := by
        cases hb : (!endsWithSlash id) <;> rw [hb] at h1 <;> simp at h1
        · exact h1
      obtain ⟨c, t, hent⟩ : ∃ c t, entry = FSEntry.file c t := by
        cases entry with
        | file c t => exact ⟨c, t, rfl⟩
        | dir es t => simp [FileDataAccessor.statsOf] at hfile
      subst hent
      obtain ⟨es', hunl⟩ := FileDataAccessor.fsUnlinkAux_of_find_file
        (FileDataAccessor.fsParts path) fs c t hf
      rw [hunl] at herr
      simp at herr
    · rw [if_neg h1] at herr ⊢
      by_cases h2 : (endsWithSlash id && (FileDataAccessor.statsOf entry).isDirectory) = true
      · rw [if_pos h2] at herr ⊢
        cases hrm : FileDataAccessor.fsRmdirAux fs (FileDataAccessor.fsParts path) with
        | ok fs₂ => rw [hrm] at herr; simp at herr
        | error er => rfl
      · rw [if_neg h2] at herr ⊢

/-- C7 witness: the amended statement at a concrete failing delete (shape
mismatch on an existing directory, no sidecar anywhere). -/
theorem C7_deleteResource_amended_witness :
    FileDataAccessor.mapUrlToFilePath tbase uploadsRoot "http://test.com/container" =
      .ok "uploads/container" ∧
    FileDataAccessor.fsFind [("uploads", FSEntry.dir [("container", FSEntry.dir [] 0)] 0)]
      (FileDataAccessor.getMetadataPath "uploads/container") = none ∧
    (FileDataAccessor.deleteResource tbase uploadsRoot
      [("uploads", FSEntry.dir [("container", FSEntry.dir [] 0)] 0)]
      "http://test.com/container").1 = .error .notFound ∧
    (FileDataAccessor.deleteResource tbase uploadsRoot
      [("uploads", FSEntry.dir [("container", FSEntry.dir [] 0)] 0)]
      "http://test.com/container").2 =
      [("uploads", FSEntry.dir [("container", FSEntry.dir [] 0)] 0)] := by
  refine ⟨rfl, rfl, rfl, ?_⟩
  exact C7_deleteResource_amended _ _ "uploads/container" .notFound rfl rfl rfl

/-! ## Claim C6 -/

theorem getAll_mem_addQuads (m : Metadata) (qs : List Quad) (v pred : String)
    (h : (⟨m.identifier, pred, v⟩ : Quad) ∈ qs) : v ∈ (m.addQuads qs).getAll pred := by
  unfold Metadata.getAll Metadata.addQuads
  simp only
  apply List.mem_map.mpr
  refine ⟨⟨m.identifier, pred, v⟩, ?_, rfl⟩
  apply List.mem_filter.mpr
  exact ⟨List.mem_append_right _ h, by simp⟩

theorem generateMetadata_contains_length (pathv : String)
    (es : List (String × CacheEntry)) (mc : Option Metadata) (hne : es ≠ []) :
    ((InMemoryDataAccessor.generateMetadata pathv
      (.containerEntry es mc)).getAll LDP.contains).length > 0 := by
  unfold InMemoryDataAccessor.generateMetadata
  simp only
  set md := (match (CacheEntry.containerEntry es mc) with
    | .dataEntry _ (some m) => m
    | .dataEntry _ none => Metadata.empty pathv
    | .containerEntry _ (some m) => m
    | .containerEntry _ none => Metadata.empty pathv) with hmd
  set childNames := es.map (fun p =>
    pathv ++ p.1 ++ (if InMemoryDataAccessor.isDataEntry p.2 then "" else "/")) with hcn
  have hmem : ∀ n ∈ childNames, n ∈ (md.addQuads
      (MetadataController.generateContainerContainsResourceQuads md.identifier
        childNames)).getAll LDP.contains := by
    intro n hn
    apply getAll_mem_addQuads
    unfold MetadataController.generateContainerContainsResourceQuads
    exact List.mem_map_of_mem _ hn
  have hcne : childNames ≠ [] := by
    rw [hcn]
    simp [hne]
  obtain ⟨n, hn⟩ := List.exists_mem_of_ne_nil childNames hcne
  have := hmem n hn
  exact List.length_pos.mpr (List.ne_nil_of_mem this)

theorem generateMetadata_contains_mem (pathv : String)
    (es : List (String × CacheEntry)) (mc : Metadata) (name : String) (e : CacheEntry)
    (hx : InMemoryDataAccessor.lookupEntry es name = some e) :
    (pathv ++ name ++ (if InMemoryDataAccessor.isDataEntry e then "" else "/")) ∈
      (InMemoryDataAccessor.generateMetadata pathv
        (.containerEntry es (some mc))).getAll LDP.contains := by
  have hpair : (name, e) ∈ es := by
    unfold InMemoryDataAccessor.lookupEntry at hx
    cases hfind : es.find? (fun p => p.1 == name) with
    | none => rw [hfind] at hx; simp at hx
    | some pr =>
      rw [hfind] at hx
      simp only at hx
      cases hx
      have hkey : (pr.1 == name) = true := by
        have h := List.find?_some hfind
        simpa using h
      have hmem := List.mem_of_find?_eq_some hfind
      have heq : pr.1 = name := by simpa using hkey
      have : pr = (name, pr.2) := by
        rw [← heq]
      rw [← this]
      exact hmem
  unfold InMemoryDataAccessor.generateMetadata
  simp only
  apply getAll_mem_addQuads
  unfold MetadataController.generateContainerContainsResourceQuads
  apply List.mem_map_of_mem
  exact List.mem_map_of_mem _ hpair

/-- C6: for the store's `deleteResource`: the root identifier fails
method-not-allowed; a container `c/` having at least one containment edge
(a non-empty child map) fails conflict and deletes nothing; and after the
only child of `c/` is deleted through the store, `deleteResource(c/)`
succeeds. -/
theorem C6_store_deleteResource :
    (∀ s : MemStore,
      DataAccessorBasedStore.deleteResource tbase tbase s =
        (.error .methodNotAllowed, s)) ∧
    (∀ (R : List (String × CacheEntry)) (M : Option Metadata)
      (es : List (String × CacheEntry)) (mc : Option Metadata),
      InMemoryDataAccessor.lookupEntry R "c" = some (.containerEntry es mc) →
      es ≠ [] →
      DataAccessorBasedStore.deleteResource tbase "http://test.com/c/" ⟨R, M⟩ =
        (.error .conflict, ⟨R, M⟩)) ∧
    (∀ (R : List (String × CacheEntry)) (M : Option Metadata) (bs : List Nat)
      (mc : Metadata),
      InMemoryDataAccessor.lookupEntry R "c" = none →
      mc.getAll LDP.contains = [] →
      DataAccessorBasedStore.deleteResource tbase "http://test.com/c/x"
        (⟨R ++ [("c", .containerEntry [("x", .dataEntry bs none)] (some mc))], M⟩ :
          MemStore) =
        (.ok (), (⟨R ++ [("c", .containerEntry [] (some mc))], M⟩ : MemStore)) ∧
      (DataAccessorBasedStore.deleteResource tbase "http://test.com/c/"
        (⟨R ++ [("c", .containerEntry [] (some mc))], M⟩ : MemStore)).1 = .ok ()) := by
  refine ⟨fun s => rfl, ?_, ?_⟩
  · intro R M es mc hc hne
    unfold DataAccessorBasedStore.deleteResource
    have hval : DataAccessorBasedStore.validateIdentifier tbase "http://test.com/c/" =
        .ok () := rfl
    rw [hval]
    simp only
    rw [if_neg (by decide : ¬ ensureTrailingSlash "http://test.com/c/" = tbase)]
    have hmd : InMemoryDataAccessor.getMetadata tbase ⟨R, M⟩ "http://test.com/c/" =
        .ok (InMemoryDataAccessor.generateMetadata "http://test.com/c/"
          (.containerEntry es mc)) := by
      unfold InMemoryDataAccessor.getMetadata InMemoryDataAccessor.getEntry
      have hparts : InMemoryDataAccessor.memParts tbase "http://test.com/c/" = ["c"] := rfl
      rw [hparts]
      simp only [InMemoryDataAccessor.getEntryAux]
      rw [hc]
      simp only
      rw [if_neg (show ¬ (InMemoryDataAccessor.isDataEntry (CacheEntry.containerEntry es mc) =
          endsWithSlash "http://test.com/c/") by
        rw [show InMemoryDataAccessor.isDataEntry (CacheEntry.containerEntry es mc) = false
          from rfl, show endsWithSlash "http://test.com/c/" = true from rfl]
        simp)]
    rw [hmd]
    simp only
    rw [if_pos (generateMetadata_contains_length "http://test.com/c/" es mc hne)]
  · intro R M bs mc hR hmc
    have hlook : InMemoryDataAccessor.lookupEntry
        (R ++ [("c", CacheEntry.containerEntry [("x", .dataEntry bs none)] (some mc))])
        "c" = some (.containerEntry [("x", .dataEntry bs none)] (some mc)) := by
      rw [InMemoryDataAccessor.lookupEntry_append, hR]
      simp [InMemoryDataAccessor.lookupEntry_cons]
    have hlook' : InMemoryDataAccessor.lookupEntry
        (R ++ [("c", CacheEntry.containerEntry [] (some mc))]) "c" =
        some (.containerEntry [] (some mc)) := by
      rw [InMemoryDataAccessor.lookupEntry_append, hR]
      simp [InMemoryDataAccessor.lookupEntry_cons]
    constructor
    · unfold DataAccessorBasedStore.deleteResource
      have hval : DataAccessorBasedStore.validateIdentifier tbase "http://test.com/c/x" =
          .ok () := rfl
      rw [hval]
      simp only
      rw [if_neg (by decide : ¬ ensureTrailingSlash "http://test.com/c/x" = tbase)]
      have hmd : InMemoryDataAccessor.getMetadata tbase
          (⟨R ++ [("c", CacheEntry.containerEntry [("x", .dataEntry bs none)] (some mc))],
            M⟩ : MemStore) "http://test.com/c/x" =
          .ok (Metadata.empty "http://test.com/c/x") := by
        unfold InMemoryDataAccessor.getMetadata InMemoryDataAccessor.getEntry
        have hparts : InMemoryDataAccessor.memParts tbase "http://test.com/c/x" =
            ["c", "x"] := rfl
        rw [hparts]
        simp only [InMemoryDataAccessor.getEntryAux]
        rw [hlook]
        simp only
        rw [show InMemoryDataAccessor.lookupEntry [("x", CacheEntry.dataEntry bs none)] "x" =
          some (.dataEntry bs none) by simp [InMemoryDataAccessor.lookupEntry_cons]]
        rfl
      rw [hmd]
      simp only
      rw [if_neg (by simp [Metadata.getAll, Metadata.empty] :
        ¬ ((Metadata.empty "http://test.com/c/x").getAll LDP.contains).length > 0)]
      unfold InMemoryDataAccessor.deleteResource
      have hparts : InMemoryDataAccessor.memParts tbase "http://test.com/c/x" =
          ["c", "x"] := rfl
      rw [hparts]
      simp only [InMemoryDataAccessor.deleteEntryAux]
      rw [hlook]
      simp only
      rw [show InMemoryDataAccessor.lookupEntry [("x", CacheEntry.dataEntry bs none)] "x" =
        some (.dataEntry bs none) by simp [InMemoryDataAccessor.lookupEntry_cons]]
      simp only [InMemoryDataAccessor.removeEntry]
      rw [show List.filter (fun p => !(p.1 == "x"))
          [("x", CacheEntry.dataEntry bs none)] = [] by simp]
      rw [InMemoryDataAccessor.insertEntry_append_update R "c" _ _ hR]
    · unfold DataAccessorBasedStore.deleteResource
      have hval : DataAccessorBasedStore.validateIdentifier tbase "http://test.com/c/" =
          .ok () := rfl
      rw [hval]
      simp only
      rw [if_neg (by decide : ¬ ensureTrailingSlash "http://test.com/c/" = tbase)]
      have hmd : InMemoryDataAccessor.getMetadata tbase
          (⟨R ++ [("c", CacheEntry.containerEntry [] (some mc))], M⟩ : MemStore)
          "http://test.com/c/" = .ok (mc.addQuads []) := by
        unfold InMemoryDataAccessor.getMetadata InMemoryDataAccessor.getEntry
        have hparts : InMemoryDataAccessor.memParts tbase "http://test.com/c/" =
            ["c"] := rfl
        rw [hparts]
        simp only [InMemoryDataAccessor.getEntryAux]
        rw [hlook']
        simp only
        rw [if_neg (show
          ¬ (InMemoryDataAccessor.isDataEntry (CacheEntry.containerEntry [] (some mc)) =
            endsWithSlash "http://test.com/c/") by
          rw [show InMemoryDataAccessor.isDataEntry (CacheEntry.containerEntry [] (some mc)) =
            false from rfl, show endsWithSlash "http://test.com/c/" = true from rfl]
          simp)]
        rfl
      rw [hmd]
      simp only
      have haq : mc.addQuads [] = mc := by
        cases mc
        simp [Metadata.addQuads]
      rw [if_neg (show ¬ ((mc.addQuads []).getAll LDP.contains).length > 0 by
        rw [haq, hmc]
        simp)]
      unfold InMemoryDataAccessor.deleteResource
      have hparts : InMemoryDataAccessor.memParts tbase "http://test.com/c/" = ["c"] := rfl
      rw [hparts]
      simp only [InMemoryDataAccessor.deleteEntryAux]
      rw [hlook']

/-- C6 witness: the three parts at a concrete store. -/
theorem C6_store_deleteResource_witness :
    DataAccessorBasedStore.deleteResource tbase tbase
      (⟨[], none⟩ : MemStore) = (.error .methodNotAllowed, (⟨[], none⟩ : MemStore)) ∧
    DataAccessorBasedStore.deleteResource tbase "http://test.com/c/"
      (⟨[("c", .containerEntry [("x", .dataEntry [7] none)] none)], none⟩ : MemStore) =
      (.error .conflict,
        (⟨[("c", .containerEntry [("x", .dataEntry [7] none)] none)], none⟩ : MemStore)) ∧
    DataAccessorBasedStore.deleteResource tbase "http://test.com/c/x"
      (⟨[("c", .containerEntry [("x", .dataEntry [7] none)]
        (some (Metadata.empty "http://test.com/c/")))], none⟩ : MemStore) =
      (.ok (), (⟨[("c", .containerEntry [] (some (Metadata.empty "http://test.com/c/")))],
        none⟩ : MemStore)) ∧
    (DataAccessorBasedStore.deleteResource tbase "http://test.com/c/"
      (⟨[("c", .containerEntry [] (some (Metadata.empty "http://test.com/c/")))],
        none⟩ : MemStore)).1 = .ok () := by
  refine ⟨C6_store_deleteResource.1 _, ?_, ?_, ?_⟩
  · exact C6_store_deleteResource.2.1 _ none _ none rfl (by simp)
  · exact (C6_store_deleteResource.2.2 ([] : List (String × CacheEntry)) none [7]
      (Metadata.empty "http://test.com/c/") rfl rfl).1
  · exact (C6_store_deleteResource.2.2 ([] : List (String × CacheEntry)) none [7]
      (Metadata.empty "http://test.com/c/") rfl rfl).2

/-! ## Claim C2 -/

theorem strAppend_empty (s : String) : s ++ "" = s := by
  cases s with
  | mk l =>
    show String.mk (l ++ []) = String.mk l
    rw [List.append_nil]

theorem strAppend_left_inj (a b c : String) (h : a ++ b = a ++ c) : b = c := by
  have hd : a.data ++ b.data = a.data ++ c.data := by
    rw [← strData_append, ← strData_append, h]
  have h2 := List.append_cancel_left hd
  cases b; cases c
  simp only at h2
  exact congrArg String.mk h2

theorem splitSlashL_wf_seg (t : String) (hwf : wfSeg t) :
    splitSlashL t.data = [t.data] :=
  splitSlashL_no_slash t.data hwf.2

theorem memParts_c_append (t : String) (hwf : wfSeg t) :
    InMemoryDataAccessor.memParts tbase ("http://test.com/c/" ++ t) = ["c", t] := by
  unfold InMemoryDataAccessor.memParts strDrop pathSegs
  have hdrop : (("http://test.com/c/" ++ t) : String).data.drop tbase.length =
      'c' :: '/' :: t.data := by
    rw [strData_append]
    have hlen : tbase.length ≤ ("http://test.com/c/" : String).data.length := by decide
    rw [List.drop_append_of_le_length hlen]
    rfl
  rw [hdrop]
  have hsplit : splitSlashL ('c' :: '/' :: t.data) = ['c'] :: splitSlashL t.data := by
    have h1 : ('c' :: '/' :: t.data) = ['c'] ++ '/' :: t.data := rfl
    rw [h1, splitSlashL_append]
    rfl
  rw [hsplit, splitSlashL_wf_seg t hwf]
  have htne : t.data ≠ [] := string_ne_empty_data hwf.1
  simp [htne]

theorem getAll_type_decomp (m : Metadata) (t : String) (ht : t ∈ m.getAll RDF.type) :
    ∃ q ∈ m.quads, q.subj = m.identifier ∧ q.pred = RDF.type ∧ q.obj = t := by
  unfold Metadata.getAll at ht
  obtain ⟨q, hq, hobj⟩ := List.mem_map.mp ht
  obtain ⟨hmem, hcond⟩ := List.mem_filter.mp hq
  have hcond' := hcond
  simp only [Bool.and_eq_true, beq_iff_eq] at hcond'
  exact ⟨q, hmem, hcond'.1, hcond'.2, hobj⟩

theorem isNewContainer_false (m : Metadata) (suffix : Option String) (sl : String)
    (hno : ∀ q ∈ m.quads, q.subj = m.identifier → q.pred = RDF.type →
      q.obj ≠ LDP.Container ∧ q.obj ≠ LDP.BasicContainer)
    (hfb : (match suffix with | some s => some s | none => m.get HTTP.slug) = some sl)
    (hsl : endsWithSlash sl = false) :
    DataAccessorBasedStore.isNewContainer m suffix = false := by
  unfold DataAccessorBasedStore.isNewContainer
  cases hex : DataAccessorBasedStore.isExistingContainer m with
  | ok b =>
    simp only
    unfold DataAccessorBasedStore.isExistingContainer at hex
    by_cases hemp : (m.getAll RDF.type).isEmpty
    · rw [if_pos hemp] at hex
      exact absurd hex (by simp)
    · rw [if_neg hemp] at hex
      have hb : (m.getAll RDF.type).any
          (fun t => t == LDP.Container || t == LDP.BasicContainer) = b :=
        Except.ok.inj hex
      rw [← hb]
      apply List.any_eq_false.mpr
      intro t ht
      obtain ⟨q, hmem, hsubj, hpred, hobj⟩ := getAll_type_decomp m t ht
      have hne := hno q hmem hsubj hpred
      rw [hobj] at hne
      simp [hne.1, hne.2]
  | error e =>
    simp only
    rw [hfb]
    simp only
    exact hsl

/-- C2: for a container `c/` that already contains a child `c/x` (of either
kind — the collision check matches the candidate both with and without a
trailing slash), `addResource(c/, representation with suggested name "x")`
succeeds with the freshly generated name instead of the slug, the returned
identifier differs from `c/x`, and the entry previously stored at `c/x` is
unchanged. -/
theorem C2_addResource_slug_collision
    (R : List (String × CacheEntry)) (M : Option Metadata)
    (es : List (String × CacheEntry)) (mc : Metadata) (e : CacheEntry)
    (r : Representation) (fuel : Nat) (fresh₁ fresh₂ : String)
    (hc : InMemoryDataAccessor.lookupEntry R "c" =
      some (.containerEntry es (some mc)))
    (hx : InMemoryDataAccessor.lookupEntry es "x" = some e)
    (hfresh : InMemoryDataAccessor.lookupEntry es fresh₂ = none)
    (hwf : wfSeg fresh₂)
    (hmctype : DataAccessorBasedStore.isExistingContainer
      (InMemoryDataAccessor.generateMetadata "http://test.com/c/"
        (.containerEntry es (some mc))) = .ok true)
    (hslug : r.metadata.get HTTP.slug = some "x")
    (hno : ∀ q ∈ r.metadata.quads, q.subj = r.metadata.identifier →
      q.pred = RDF.type → q.obj ≠ LDP.Container ∧ q.obj ≠ LDP.BasicContainer)
    (herr : r.data.err = none) (hdr : r.data.drained = false) :
    ((DataAccessorBasedStore.addResource tbase fuel "http://test.com/c/" r
      fresh₁ fresh₂ ⟨R, M⟩).1 = .ok ("http://test.com/c/" ++ fresh₂)) ∧
    ("http://test.com/c/" ++ fresh₂ ≠ "http://test.com/c/x") ∧
    (InMemoryDataAccessor.getEntry tbase
      (DataAccessorBasedStore.addResource tbase fuel "http://test.com/c/" r
        fresh₁ fresh₂ ⟨R, M⟩).2 "http://test.com/c/x" = .ok e) := by
  have hxf : fresh₂ ≠ "x" := by
    intro hcon
    rw [hcon, hx] at hfresh
    exact absurd hfresh (by simp)
  have hnewid : DataAccessorBasedStore.createURI "http://test.com/c/" false none fresh₂ =
      "http://test.com/c/" ++ fresh₂ := by
    show (ensureTrailingSlash "http://test.com/c/" ++ fresh₂) ++ "" =
      "http://test.com/c/" ++ fresh₂
    rw [show ensureTrailingSlash "http://test.com/c/" = "http://test.com/c/" from rfl]
    exact strAppend_empty _
  have hnew : DataAccessorBasedStore.isNewContainer r.metadata none = false :=
    isNewContainer_false r.metadata none "x" hno (by rw [hslug]) rfl
  have hnorm : InMemoryDataAccessor.getNormalizedMetadata tbase ⟨R, M⟩
      "http://test.com/c/" = .ok (InMemoryDataAccessor.generateMetadata
        "http://test.com/c/" (.containerEntry es (some mc))) := by
    unfold InMemoryDataAccessor.getNormalizedMetadata InMemoryDataAccessor.getEntry
    rw [show InMemoryDataAccessor.memParts tbase "http://test.com/c/" = ["c"] from rfl]
    simp only [InMemoryDataAccessor.getEntryAux]
    rw [hc]
  have hmemval : ("http://test.com/c/" ++ "x" ++
      (if InMemoryDataAccessor.isDataEntry e then "" else "/")) ∈
      (InMemoryDataAccessor.generateMetadata "http://test.com/c/"
        (.containerEntry es (some mc))).getAll LDP.contains :=
    generateMetadata_contains_mem _ es mc "x" e hx
  have hcand : DataAccessorBasedStore.createURI "http://test.com/c/" false
      (some "x") fresh₁ = "http://test.com/c/x" := rfl
  have hhit : ((InMemoryDataAccessor.generateMetadata "http://test.com/c/"
      (.containerEntry es (some mc))).getAll LDP.contains).any
      (fun t => t == ensureTrailingSlash "http://test.com/c/x" ||
        t == trimTrailingSlashes "http://test.com/c/x") = true := by
    apply List.any_eq_true.mpr
    refine ⟨_, hmemval, ?_⟩
    cases he : InMemoryDataAccessor.isDataEntry e <;> decide
  have hdata : arrayifyStream r.data = .ok r.data.chunks := by
    unfold arrayifyStream
    rw [herr]
    simp only
    rw [hdr]
    simp
  have hres : DataAccessorBasedStore.addResource tbase fuel "http://test.com/c/" r
      fresh₁ fresh₂ ⟨R, M⟩ =
      (.ok ("http://test.com/c/" ++ fresh₂),
        ⟨InMemoryDataAccessor.insertEntry R "c"
          (.containerEntry
            (es ++ [(fresh₂, .dataEntry r.data.chunks
              (some (((r.metadata.removeAll HTTP.slug).setIdentifier
                  ("http://test.com/c/" ++ fresh₂)).addQuads
                (MetadataController.generateResourceQuads
                  ("http://test.com/c/" ++ fresh₂) false))))])
            (some mc)), M⟩) := by
    unfold DataAccessorBasedStore.addResource
    rw [show DataAccessorBasedStore.validateIdentifier tbase "http://test.com/c/" =
      .ok () from rfl]
    simp only
    rw [show InMemoryDataAccessor.canHandle r = .ok () from rfl]
    simp only
    rw [hnew, hslug, hnorm]
    simp only
    rw [hcand, hhit]
    simp only [if_true]
    rw [hnewid, hmctype]
    simp only
    unfold DataAccessorBasedStore.writeData
    simp only [Bool.false_eq_true, if_false, Option.isNone_some]
    unfold DataAccessorBasedStore.writeStamped
    simp only [Bool.false_eq_true, if_false]
    unfold InMemoryDataAccessor.writeDataResource
    rw [memParts_c_append fresh₂ hwf]
    simp only [InMemoryDataAccessor.resolveParentOk]
    rw [hc]
    simp only
    rw [hdata]
    simp only
    unfold InMemoryDataAccessor.setEntryAt
    rw [memParts_c_append fresh₂ hwf]
    simp only [InMemoryDataAccessor.setEntryAux]
    rw [hc]
    simp only
    rw [InMemoryDataAccessor.insertEntry_of_lookup_none es fresh₂ _ hfresh]
  refine ⟨?_, ?_, ?_⟩
  · rw [hres]
  · intro h
    have h' : "http://test.com/c/" ++ fresh₂ = "http://test.com/c/" ++ "x" := by
      rw [h]
      decide
    exact hxf (strAppend_left_inj _ _ _ h')
  · rw [hres]
    unfold InMemoryDataAccessor.getEntry
    rw [show InMemoryDataAccessor.memParts tbase "http://test.com/c/x" = ["c", "x"]
      from rfl]
    simp only [InMemoryDataAccessor.getEntryAux]
    rw [InMemoryDataAccessor.lookupEntry_insertEntry_self]
    simp only
    rw [InMemoryDataAccessor.lookupEntry_append, hx]

/-- C2 witness: the slug-collision scenario at a concrete store, with a
data-entry child. -/
theorem C2_addResource_slug_collision_witness :
    ((DataAccessorBasedStore.addResource tbase 1 "http://test.com/c/"
      ⟨true, ⟨[9, 9], none, false, none⟩,
        ⟨"meta:id", [⟨"meta:id", HTTP.slug, "x"⟩]⟩⟩ "f1" "f2"
      (⟨[("c", .containerEntry [("x", .dataEntry [7] none)]
        (some ((Metadata.empty "http://test.com/c/").addQuads
          (MetadataController.generateResourceQuads "http://test.com/c/" true))))],
        none⟩ : MemStore)).1 = .ok ("http://test.com/c/" ++ "f2")) ∧
    ("http://test.com/c/" ++ "f2" ≠ "http://test.com/c/x") ∧
    (InMemoryDataAccessor.getEntry tbase
      (DataAccessorBasedStore.addResource tbase 1 "http://test.com/c/"
        ⟨true, ⟨[9, 9], none, false, none⟩,
          ⟨"meta:id", [⟨"meta:id", HTTP.slug, "x"⟩]⟩⟩ "f1" "f2"
        (⟨[("c", .containerEntry [("x", .dataEntry [7] none)]
          (some ((Metadata.empty "http://test.com/c/").addQuads
            (MetadataController.generateResourceQuads "http://test.com/c/" true))))],
          none⟩ : MemStore)).2 "http://test.com/c/x" = .ok (.dataEntry [7] none)) := by
  exact C2_addResource_slug_collision _ none _ _ _ _ 1 "f1" "f2" rfl rfl rfl
    (by constructor <;> decide) rfl rfl
    (by intro q hq h1 h2; simp at hq; rw [hq] at h2; exact absurd h2 (by decide))
    rfl rfl


/-! ## Claim C9 -/

theorem getEntryAux_error_eq (parts : List String) :
    ∀ es e, InMemoryDataAccessor.getEntryAux es parts = .error e → e = .notFound := by
  induction parts with
  | nil => intro es e h; simp [InMemoryDataAccessor.getEntryAux] at h; exact h.symm
  | cons p rest ih =>
    intro es e h
    cases rest with
    | nil =>
      simp only [InMemoryDataAccessor.getEntryAux] at h
      cases hl : InMemoryDataAccessor.lookupEntry es p with
      | none => rw [hl] at h; simp at h; exact h.symm
      | some entry => rw [hl] at h; simp at h
    | cons q rrest =>
      simp only [InMemoryDataAccessor.getEntryAux] at h
      cases hl : InMemoryDataAccessor.lookupEntry es p with
      | none => rw [hl] at h; simp at h; exact h.symm
      | some entry =>
        cases entry with
        | dataEntry bs md => rw [hl] at h; simp at h; exact h.symm
        | containerEntry es₀ md =>
          rw [hl] at h
          simp only at h
          exact ih es₀ e h

theorem setEntryAux_error_eq (ec : CacheEntry) (parts : List String) :
    ∀ es e, InMemoryDataAccessor.setEntryAux ec es parts = .error e → e = .notFound := by
  induction parts with
  | nil => intro es e h; simp [InMemoryDataAccessor.setEntryAux] at h
  | cons p rest ih =>
    intro es e h
    cases rest with
    | nil => simp [InMemoryDataAccessor.setEntryAux] at h
    | cons q rrest =>
      simp only [InMemoryDataAccessor.setEntryAux] at h
      cases hl : InMemoryDataAccessor.lookupEntry es p with
      | none => rw [hl] at h; simp at h; exact h.symm
      | some entry =>
        cases entry with
        | dataEntry bs md => rw [hl] at h; simp at h; exact h.symm
        | containerEntry es₀ md =>
          rw [hl] at h
          simp only at h
          cases hs : InMemoryDataAccessor.setEntryAux ec es₀ (q :: rrest) with
          | ok es₀' => rw [hs] at h; simp at h
          | error e' =>
            rw [hs] at h
            simp only at h
            cases h
            exact ih es₀ _ hs

theorem resolveParentOk_error_eq (parts : List String) :
    ∀ es e, InMemoryDataAccessor.resolveParentOk es parts = .error e → e = .notFound := by
  induction parts with
  | nil => intro es e h; simp [InMemoryDataAccessor.resolveParentOk] at h
  | cons p rest ih =>
    intro es e h
    cases rest with
    | nil => simp [InMemoryDataAccessor.resolveParentOk] at h
    | cons q rrest =>
      simp only [InMemoryDataAccessor.resolveParentOk] at h
      cases hl : InMemoryDataAccessor.lookupEntry es p with
      | none => rw [hl] at h; simp at h; exact h.symm
      | some entry =>
        cases entry with
        | dataEntry bs md => rw [hl] at h; simp at h; exact h.symm
        | containerEntry es₀ md =>
          rw [hl] at h
          simp only at h
          exact ih es₀ e h

theorem getNormalizedMetadata_error_eq (s : MemStore) (p : String) (e : Err)
    (h : InMemoryDataAccessor.getNormalizedMetadata tbase s p = .error e) :
    e = .notFound := by
  unfold InMemoryDataAccessor.getNormalizedMetadata InMemoryDataAccessor.getEntry at h
  cases hp : InMemoryDataAccessor.memParts tbase p with
  | nil => rw [hp] at h; simp at h
  | cons a rest =>
    rw [hp] at h
    simp only at h
    cases hg : InMemoryDataAccessor.getEntryAux s.entries (a :: rest) with
    | ok entry => rw [hg] at h; simp at h
    | error e' =>
      rw [hg] at h
      simp only at h
      cases h
      exact getEntryAux_error_eq (a :: rest) s.entries _ hg

theorem isExistingContainer_error_eq (m : Metadata) (e : Err)
    (h : DataAccessorBasedStore.isExistingContainer m = .error e) :
    e = .unknownResourceType := by
  unfold DataAccessorBasedStore.isExistingContainer at h
  by_cases hemp : (m.getAll RDF.type).isEmpty
  · rw [if_pos hemp] at h
    exact (Except.error.inj h).symm
  · rw [if_neg hemp] at h
    simp at h

theorem writeDataResource_fst_ne_fuel (s : MemStore) (id : String) (d : DataStream)
    (md : Option Metadata) :
    (InMemoryDataAccessor.writeDataResource tbase s id d md).1 ≠ .error .fuelExhausted := by
  unfold InMemoryDataAccessor.writeDataResource
  cases hr : InMemoryDataAccessor.resolveParentOk s.entries
      (InMemoryDataAccessor.memParts tbase id) with
  | error e =>
    have := resolveParentOk_error_eq _ _ _ hr
    subst this
    simp
  | ok u =>
    cases u
    simp only
    cases ha : arrayifyStream d with
    | error e =>
      unfold arrayifyStream at ha
      cases he : d.err with
      | none => rw [he] at ha; simp at ha
      | some msg =>
        rw [he] at ha
        simp only at ha
        cases ha
        simp
    | ok bs =>
      simp only
      cases hs : InMemoryDataAccessor.setEntryAt tbase s id (.dataEntry bs md) with
      | ok s' => simp
      | error e =>
        unfold InMemoryDataAccessor.setEntryAt at hs
        cases hp : InMemoryDataAccessor.memParts tbase id with
        | nil => rw [hp] at hs; simp at hs
        | cons a rest =>
          rw [hp] at hs
          simp only at hs
          cases hsa : InMemoryDataAccessor.setEntryAux (.dataEntry bs md) s.entries
              (a :: rest) with
          | ok es => rw [hsa] at hs; simp at hs
          | error e' =>
            rw [hsa] at hs
            simp only at hs
            cases hs
            have := setEntryAux_error_eq _ _ _ _ hsa
            subst this
            simp

theorem writeContainer_fst_ne_fuel (s : MemStore) (id : String) (md : Option Metadata) :
    (InMemoryDataAccessor.writeContainer tbase s id md).1 ≠ .error .fuelExhausted := by
  unfold InMemoryDataAccessor.writeContainer
  cases hs : InMemoryDataAccessor.setEntryAt tbase s id (.containerEntry [] md) with
  | ok s' => simp
  | error e =>
    unfold InMemoryDataAccessor.setEntryAt at hs
    cases hp : InMemoryDataAccessor.memParts tbase id with
    | nil => rw [hp] at hs; simp at hs
    | cons a rest =>
      rw [hp] at hs
      simp only at hs
      cases hsa : InMemoryDataAccessor.setEntryAux (.containerEntry [] md) s.entries
          (a :: rest) with
      | ok es => rw [hsa] at hs; simp at hs
      | error e' =>
        rw [hsa] at hs
        simp only at hs
        cases hs
        have := setEntryAux_error_eq _ _ _ _ hsa
        subst this
        simp

theorem writeStamped_fst_ne_fuel (id : String) (r : Representation) (isC : Bool)
    (s : MemStore) :
    (DataAccessorBasedStore.writeStamped tbase id r isC s).1 ≠ .error .fuelExhausted := by
  unfold DataAccessorBasedStore.writeStamped
  cases isC with
  | true => simpa using writeContainer_fst_ne_fuel s id _
  | false => simpa using writeDataResource_fst_ne_fuel s id r.data _

theorem handleContainerData_error_eq (r : Representation) (e : Err)
    (h : DataAccessorBasedStore.handleContainerData r = .error e) :
    e = .unsupportedHttp ∨ e = .conflict := by
  unfold DataAccessorBasedStore.handleContainerData at h
  cases hp : MetadataController.parseQuadsStream r.data with
  | error e' => rw [hp] at h; simp only at h; exact Or.inl (Except.error.inj h).symm
  | ok quads =>
    rw [hp] at h
    simp only at h
    by_cases hc : quads.any (fun q => q.pred == LDP.contains) = true
    · rw [if_pos hc] at h
      exact Or.inr (Except.error.inj h).symm
    · rw [if_neg hc] at h
      simp at h

theorem writeDataNC_fst_ne_fuel (id : String) (r : Representation) (isC : Bool)
    (s : MemStore) :
    (DataAccessorBasedStore.writeDataNC tbase id r isC s).1 ≠ .error .fuelExhausted := by
  unfold DataAccessorBasedStore.writeDataNC
  cases isC with
  | false => simpa using writeStamped_fst_ne_fuel id r false s
  | true =>
    simp only [if_true]
    cases hh : DataAccessorBasedStore.handleContainerData r with
    | error e =>
      simp only
      rcases handleContainerData_error_eq r e hh with h | h <;> subst h <;> simp
    | ok r' =>
      simp only
      exact writeStamped_fst_ne_fuel id r' true s

/-- C9: `createRecursiveContainers` terminates for every identifier under
the store's base: given that the base resolves to an existing container,
fuel exceeding the path depth is never exhausted — each recursive call is on
the parent identifier, which has one path segment fewer, and the recursion
stops at the base. -/
theorem C9_createRecursiveContainers_terminates
    (s : MemStore) (segs : List String) (fuel : Nat)
    (hroot : rootIsContainer s)
    (hsegs : ∀ t ∈ segs, wfSeg t)
    (hfuel : segs.length < fuel) :
    (DataAccessorBasedStore.createRecursiveContainers tbase fuel
      (tbase ++ joinSegs segs) s).1 ≠ .error .fuelExhausted := by
  induction segs using List.reverseRecOn generalizing fuel with
  | nil =>
    cases fuel with
    | zero => exact absurd hfuel (by simp)
    | succ f =>
      have hid : tbase ++ joinSegs [] = tbase := by
        rw [show joinSegs [] = "" from rfl]
        exact strAppend_empty tbase
      rw [hid]
      simp only [DataAccessorBasedStore.createRecursiveContainers]
      have hnorm : InMemoryDataAccessor.getNormalizedMetadata tbase s tbase =
          .ok (InMemoryDataAccessor.generateMetadata tbase
            (.containerEntry s.entries s.metadata)) := by
        unfold InMemoryDataAccessor.getNormalizedMetadata InMemoryDataAccessor.getEntry
        rw [show InMemoryDataAccessor.memParts tbase tbase = [] from rfl]
      rw [hnorm]
      simp only
      rw [hroot]
      simp
  | append_singleton init last ih =>
    cases fuel with
    | zero => exact absurd hfuel (by simp)
    | succ f =>
      simp only [DataAccessorBasedStore.createRecursiveContainers]
      cases hget : InMemoryDataAccessor.getNormalizedMetadata tbase s
          (tbase ++ joinSegs (init ++ [last])) with
      | ok m =>
        simp only
        cases hex : DataAccessorBasedStore.isExistingContainer m with
        | ok b => cases b <;> simp
        | error e =>
          have := isExistingContainer_error_eq m e hex
          subst this
          simp
      | error e =>
        have he := getNormalizedMetadata_error_eq s _ e hget
        subst he
        simp only
        have hlast : wfSeg last := hsegs last (by simp)
        have hpar : parentOf (tbase ++ joinSegs (init ++ [last])) =
            tbase ++ joinSegs init :=
          parentOf_joinSegs tbase init last (by decide) hlast.1 hlast.2
        rw [hpar]
        have hrec := ih f (fun t ht => hsegs t (by simp [ht]))
          (by simp at hfuel; omega)
        cases hrc : DataAccessorBasedStore.createRecursiveContainers tbase f
            (tbase ++ joinSegs init) s with
        | mk res s' =>
          cases res with
          | ok u =>
            cases u
            simp only
            exact writeDataNC_fst_ne_fuel _ _ true s'
          | error e' =>
            simp only
            rw [hrc] at hrec
            simpa using hrec

/-- C9 witness: fuel 3 suffices for a two-segment chain over the initial
store. -/
theorem C9_createRecursiveContainers_terminates_witness :
    rootIsContainer (InMemoryDataAccessor.init tbase) ∧
    (DataAccessorBasedStore.createRecursiveContainers tbase 3
      (tbase ++ joinSegs ["a", "b"]) (InMemoryDataAccessor.init tbase)).1 ≠
      .error .fuelExhausted :=
  ⟨rfl,
    C9_createRecursiveContainers_terminates (InMemoryDataAccessor.init tbase)
      ["a", "b"] 3 rfl
      (by intro t ht; simp at ht; rcases ht with h | h <;> subst h <;>
        exact ⟨by decide, by decide⟩)
      (by decide)⟩

/-! ## Claim C1 -/

theorem getNormalizedMetadata_notFound_head (s : MemStore) (p a : String)
    (rest : List String)
    (hparts : InMemoryDataAccessor.memParts tbase p = a :: rest)
    (hnone : InMemoryDataAccessor.lookupEntry s.entries a = none) :
    InMemoryDataAccessor.getNormalizedMetadata tbase s p = .error .notFound := by
  have hge : InMemoryDataAccessor.getEntry tbase s p = .error .notFound := by
    unfold InMemoryDataAccessor.getEntry
    rw [hparts]
    show InMemoryDataAccessor.getEntryAux s.entries (a :: rest) = .error .notFound
    cases rest with
    | nil =>
      simp only [InMemoryDataAccessor.getEntryAux]
      rw [hnone]
    | cons b rrest =>
      simp only [InMemoryDataAccessor.getEntryAux]
      rw [hnone]
  unfold InMemoryDataAccessor.getNormalizedMetadata
  rw [hge]

theorem createRecursiveContainers_at_base (s : MemStore) (f : Nat)
    (hroot : rootIsContainer s) :
    DataAccessorBasedStore.createRecursiveContainers tbase (f + 1) tbase s =
      (.ok (), s) := by
  simp only [DataAccessorBasedStore.createRecursiveContainers]
  have hnorm : InMemoryDataAccessor.getNormalizedMetadata tbase s tbase =
      .ok (InMemoryDataAccessor.generateMetadata tbase
        (.containerEntry s.entries s.metadata)) := by
    unfold InMemoryDataAccessor.getNormalizedMetadata InMemoryDataAccessor.getEntry
    rw [show InMemoryDataAccessor.memParts tbase tbase = [] from rfl]
  rw [hnorm]
  simp only
  rw [hroot]

theorem writeDataNC_container_eq (p : String) (s : MemStore) (a : String)
    (rest : List String) (es' : List (String × CacheEntry))
    (hparts : InMemoryDataAccessor.memParts tbase p = a :: rest)
    (hset : InMemoryDataAccessor.setEntryAux
      (.containerEntry [] (some (c1md p))) s.entries (a :: rest) = .ok es') :
    DataAccessorBasedStore.writeDataNC tbase p
      (DataAccessorBasedStore.getEmptyContainerRepresentation p) true s =
      (.ok (), { s with entries := es' }) := by
  have h0 : DataAccessorBasedStore.writeDataNC tbase p
      (DataAccessorBasedStore.getEmptyContainerRepresentation p) true s =
      InMemoryDataAccessor.writeContainer tbase s p (some (c1md p)) := rfl
  rw [h0]
  unfold InMemoryDataAccessor.writeContainer InMemoryDataAccessor.setEntryAt
  rw [hparts]
  simp only
  rw [hset]

theorem writeStamped_data_eq (p : String) (r : Representation) (s : MemStore)
    (a : String) (rest : List String) (es' : List (String × CacheEntry))
    (hparts : InMemoryDataAccessor.memParts tbase p = a :: rest)
    (hres : InMemoryDataAccessor.resolveParentOk s.entries (a :: rest) = .ok ())
    (herr : r.data.err = none) (hdr : r.data.drained = false)
    (hset : InMemoryDataAccessor.setEntryAux
      (.dataEntry r.data.chunks (some ((r.metadata.setIdentifier p).addQuads
        (MetadataController.generateResourceQuads p false))))
      s.entries (a :: rest) = .ok es') :
    DataAccessorBasedStore.writeStamped tbase p r false s =
      (.ok (), { s with entries := es' }) := by
  have h0 : DataAccessorBasedStore.writeStamped tbase p r false s =
      InMemoryDataAccessor.writeDataResource tbase s p r.data
        (some ((r.metadata.setIdentifier p).addQuads
          (MetadataController.generateResourceQuads p false))) := rfl
  rw [h0]
  unfold InMemoryDataAccessor.writeDataResource
  rw [hparts, hres]
  simp only
  have ha : arrayifyStream r.data = .ok r.data.chunks := by
    unfold arrayifyStream
    rw [herr]
    simp only
    rw [hdr]
    simp
  rw [ha]
  simp only
  unfold InMemoryDataAccessor.setEntryAt
  rw [hparts]
  simp only
  rw [hset]

theorem c1_cascade (R : List (String × CacheEntry)) (M : Option Metadata)
    (hR : InMemoryDataAccessor.lookupEntry R "a" = none)
    (hroot : rootIsContainer ⟨R, M⟩) :
    DataAccessorBasedStore.createRecursiveContainers tbase (1 + 1 + 1 + 1 + 1)
      "http://test.com/a/b/c/" ⟨R, M⟩ =
      (.ok (), ⟨R ++ [("a", c1stage3)], M⟩) := by
  have hset1 : InMemoryDataAccessor.setEntryAux
      (.containerEntry [] (some (c1md "http://test.com/a/"))) R ["a"] =
      .ok (R ++ [("a", c1stage1)]) := by
    rw [show InMemoryDataAccessor.setEntryAux
        (.containerEntry [] (some (c1md "http://test.com/a/"))) R ["a"] =
        .ok (InMemoryDataAccessor.insertEntry R "a"
          (.containerEntry [] (some (c1md "http://test.com/a/")))) from rfl,
      InMemoryDataAccessor.insertEntry_of_lookup_none R "a" _ hR]
    rfl
  have hw1 : DataAccessorBasedStore.writeDataNC tbase "http://test.com/a/"
      (DataAccessorBasedStore.getEmptyContainerRepresentation "http://test.com/a/")
      true ⟨R, M⟩ = (.ok (), ⟨R ++ [("a", c1stage1)], M⟩) :=
    writeDataNC_container_eq "http://test.com/a/" ⟨R, M⟩ "a" []
      (R ++ [("a", c1stage1)]) rfl hset1
  have hlk1 : InMemoryDataAccessor.lookupEntry (R ++ [("a", c1stage1)]) "a" =
      some (.containerEntry [] (some (c1md "http://test.com/a/"))) := by
    rw [InMemoryDataAccessor.lookupEntry_append_right R "a" _ hR]
    rfl
  have hset2 : InMemoryDataAccessor.setEntryAux
      (.containerEntry [] (some (c1md "http://test.com/a/b/")))
      (R ++ [("a", c1stage1)]) ["a", "b"] = .ok (R ++ [("a", c1stage2)]) := by
    simp only [InMemoryDataAccessor.setEntryAux]
    rw [hlk1]
    show Except.ok (InMemoryDataAccessor.insertEntry (R ++ [("a", c1stage1)]) "a"
        (CacheEntry.containerEntry
          [("b", CacheEntry.containerEntry [] (some (c1md "http://test.com/a/b/")))]
          (some (c1md "http://test.com/a/")))) =
      Except.ok (R ++ [("a", c1stage2)])
    rw [InMemoryDataAccessor.insertEntry_append_update R "a" _ _ hR]
    rfl
  have hw2 : DataAccessorBasedStore.writeDataNC tbase "http://test.com/a/b/"
      (DataAccessorBasedStore.getEmptyContainerRepresentation "http://test.com/a/b/")
      true ⟨R ++ [("a", c1stage1)], M⟩ = (.ok (), ⟨R ++ [("a", c1stage2)], M⟩) :=
    writeDataNC_container_eq "http://test.com/a/b/" ⟨R ++ [("a", c1stage1)], M⟩
      "a" ["b"] (R ++ [("a", c1stage2)]) rfl hset2
  have hlk2 : InMemoryDataAccessor.lookupEntry (R ++ [("a", c1stage2)]) "a" =
      some (.containerEntry
        [("b", .containerEntry [] (some (c1md "http://test.com/a/b/")))]
        (some (c1md "http://test.com/a/"))) := by
    rw [InMemoryDataAccessor.lookupEntry_append_right R "a" _ hR]
    rfl
  have hset3 : InMemoryDataAccessor.setEntryAux
      (.containerEntry [] (some (c1md "http://test.com/a/b/c/")))
      (R ++ [("a", c1stage2)]) ["a", "b", "c"] = .ok (R ++ [("a", c1stage3)]) := by
    simp only [InMemoryDataAccessor.setEntryAux]
    rw [hlk2]
    show Except.ok (InMemoryDataAccessor.insertEntry (R ++ [("a", c1stage2)]) "a"
        (CacheEntry.containerEntry
          [("b", CacheEntry.containerEntry
            [("c", CacheEntry.containerEntry [] (some (c1md "http://test.com/a/b/c/")))]
            (some (c1md "http://test.com/a/b/")))]
          (some (c1md "http://test.com/a/")))) =
      Except.ok (R ++ [("a", c1stage3)])
    rw [InMemoryDataAccessor.insertEntry_append_update R "a" _ _ hR]
    rfl
  have hw3 : DataAccessorBasedStore.writeDataNC tbase "http://test.com/a/b/c/"
      (DataAccessorBasedStore.getEmptyContainerRepresentation "http://test.com/a/b/c/")
      true ⟨R ++ [("a", c1stage2)], M⟩ = (.ok (), ⟨R ++ [("a", c1stage3)], M⟩) :=
    writeDataNC_container_eq "http://test.com/a/b/c/" ⟨R ++ [("a", c1stage2)], M⟩
      "a" ["b", "c"] (R ++ [("a", c1stage3)]) rfl hset3
  simp only [DataAccessorBasedStore.createRecursiveContainers]
  rw [show parentOf "http://test.com/a/b/c/" = "http://test.com/a/b/" from rfl]
  rw [show parentOf "http://test.com/a/b/" = "http://test.com/a/" from rfl]
  rw [show parentOf "http://test.com/a/" = tbase from rfl]
  rw [getNormalizedMetadata_notFound_head ⟨R, M⟩ "http://test.com/a/b/c/" "a"
    ["b", "c"] rfl hR]
  rw [getNormalizedMetadata_notFound_head ⟨R, M⟩ "http://test.com/a/b/" "a"
    ["b"] rfl hR]
  rw [getNormalizedMetadata_notFound_head ⟨R, M⟩ "http://test.com/a/" "a" [] rfl hR]
  rw [show InMemoryDataAccessor.getNormalizedMetadata tbase ⟨R, M⟩ tbase =
    .ok (InMemoryDataAccessor.generateMetadata tbase (.containerEntry R M)) from rfl]
  simp only
  rw [show DataAccessorBasedStore.isExistingContainer
      (InMemoryDataAccessor.generateMetadata tbase (.containerEntry R M)) = .ok true
    from hroot]
  simp only
  rw [hw1]
  simp only
  rw [hw2]
  simp only
  rw [hw3]

/-- C1 counterexample: `setRepresentation` on a document identifier does not
succeed for every representation — a representation whose metadata types it
as a container clashes with the slash-less identifier and is rejected as
unsupported, leaving the store unchanged, even though nothing exists under
`a/`. -/
theorem C1_setRepresentation_counterexample :
    DataAccessorBasedStore.setRepresentation tbase 5 "http://test.com/a/b/c/resource"
      { binary := true,
        data := ⟨[], some [], false, none⟩,
        metadata := ⟨"http://test.com/a/b/c/resource",
          [⟨"http://test.com/a/b/c/resource", RDF.type, LDP.Container⟩]⟩ }
      (InMemoryDataAccessor.init tbase) =
      (.error .unsupportedHttp, InMemoryDataAccessor.init tbase) := rfl

/-- C1 (amended): `setRepresentation` on `base + "a/b/c/resource"` against a
store whose backend contains nothing under `a/` (and whose base is an
existing container) succeeds for every representation whose metadata does not
type it as a container and whose stream is live and error-free; afterwards
`a/`, `a/b/` and `a/b/c/` all exist as containers, each discoverable via its
own `getMetadata`, and `a/b/c/resource` holds the representation's content. -/
theorem C1_setRepresentation_cascade_amended
    (R : List (String × CacheEntry)) (M : Option Metadata) (r : Representation)
    (hR : InMemoryDataAccessor.lookupEntry R "a" = none)
    (hroot : rootIsContainer ⟨R, M⟩)
    (hno : ∀ q ∈ r.metadata.quads, q.subj = r.metadata.identifier →
      q.pred = RDF.type → q.obj ≠ LDP.Container ∧ q.obj ≠ LDP.BasicContainer)
    (herr : r.data.err = none) (hdr : r.data.drained = false) :
    DataAccessorBasedStore.setRepresentation tbase 5 "http://test.com/a/b/c/resource"
      r ⟨R, M⟩ = (.ok (), ⟨R ++ [("a", c1tree r)], M⟩) ∧
    (∃ m, InMemoryDataAccessor.getMetadata tbase ⟨R ++ [("a", c1tree r)], M⟩
      "http://test.com/a/" = .ok m ∧
      DataAccessorBasedStore.isExistingContainer m = .ok true) ∧
    (∃ m, InMemoryDataAccessor.getMetadata tbase ⟨R ++ [("a", c1tree r)], M⟩
      "http://test.com/a/b/" = .ok m ∧
      DataAccessorBasedStore.isExistingContainer m = .ok true) ∧
    (∃ m, InMemoryDataAccessor.getMetadata tbase ⟨R ++ [("a", c1tree r)], M⟩
      "http://test.com/a/b/c/" = .ok m ∧
      DataAccessorBasedStore.isExistingContainer m = .ok true) ∧
    (∃ s'', InMemoryDataAccessor.getData tbase ⟨R ++ [("a", c1tree r)], M⟩
      "http://test.com/a/b/c/resource" = .ok (streamifyBytes r.data.chunks, s'')) := by
  have hcc5 : DataAccessorBasedStore.createRecursiveContainers tbase 5
      "http://test.com/a/b/c/" ⟨R, M⟩ = (.ok (), ⟨R ++ [("a", c1stage3)], M⟩) :=
    c1_cascade R M hR hroot
  have hlk3 : InMemoryDataAccessor.lookupEntry (R ++ [("a", c1stage3)]) "a" =
      some (.containerEntry
        [("b", .containerEntry
          [("c", .containerEntry [] (some (c1md "http://test.com/a/b/c/")))]
          (some (c1md "http://test.com/a/b/")))]
        (some (c1md "http://test.com/a/"))) := by
    rw [InMemoryDataAccessor.lookupEntry_append_right R "a" _ hR]
    rfl
  have hres : InMemoryDataAccessor.resolveParentOk (R ++ [("a", c1stage3)])
      ["a", "b", "c", "resource"] = .ok () := by
    simp only [InMemoryDataAccessor.resolveParentOk]
    rw [hlk3]
    rfl
  have hset4 : InMemoryDataAccessor.setEntryAux
      (.dataEntry r.data.chunks (some (c1resourceMd r)))
      (R ++ [("a", c1stage3)]) ["a", "b", "c", "resource"] =
      .ok (R ++ [("a", c1tree r)]) := by
    simp only [InMemoryDataAccessor.setEntryAux]
    rw [hlk3]
    show Except.ok (InMemoryDataAccessor.insertEntry (R ++ [("a", c1stage3)]) "a"
        (CacheEntry.containerEntry
          [("b", CacheEntry.containerEntry
            [("c", CacheEntry.containerEntry
              [("resource", CacheEntry.dataEntry r.data.chunks (some (c1resourceMd r)))]
              (some (c1md "http://test.com/a/b/c/")))]
            (some (c1md "http://test.com/a/b/")))]
          (some (c1md "http://test.com/a/")))) =
      Except.ok (R ++ [("a", c1tree r)])
    rw [InMemoryDataAccessor.insertEntry_append_update R "a" _ _ hR]
    rfl
  have hwD : DataAccessorBasedStore.writeStamped tbase "http://test.com/a/b/c/resource"
      r false ⟨R ++ [("a", c1stage3)], M⟩ = (.ok (), ⟨R ++ [("a", c1tree r)], M⟩) :=
    writeStamped_data_eq "http://test.com/a/b/c/resource" r
      ⟨R ++ [("a", c1stage3)], M⟩ "a" ["b", "c", "resource"]
      (R ++ [("a", c1tree r)]) rfl hres herr hdr hset4
  have hwr : DataAccessorBasedStore.writeData tbase 5 "http://test.com/a/b/c/resource"
      r false true ⟨R, M⟩ = (.ok (), ⟨R ++ [("a", c1tree r)], M⟩) := by
    unfold DataAccessorBasedStore.writeData
    rw [show parentOf "http://test.com/a/b/c/resource" = "http://test.com/a/b/c/"
      from rfl, hcc5]
    exact hwD
  have hic : DataAccessorBasedStore.isNewContainer r.metadata
      (some "http://test.com/a/b/c/resource") = false :=
    isNewContainer_false r.metadata (some "http://test.com/a/b/c/resource")
      "http://test.com/a/b/c/resource" hno rfl rfl
  have hmain : DataAccessorBasedStore.setRepresentation tbase 5
      "http://test.com/a/b/c/resource" r ⟨R, M⟩ =
      (.ok (), ⟨R ++ [("a", c1tree r)], M⟩) := by
    unfold DataAccessorBasedStore.setRepresentation
    rw [getNormalizedMetadata_notFound_head ⟨R, M⟩ "http://test.com/a/b/c/resource"
      "a" ["b", "c", "resource"] rfl hR, hic]
    exact hwr
  have hlkT : InMemoryDataAccessor.lookupEntry (R ++ [("a", c1tree r)]) "a" =
      some (.containerEntry [("b", c1treeB r)] (some (c1md "http://test.com/a/"))) := by
    rw [InMemoryDataAccessor.lookupEntry_append_right R "a" _ hR]
    rfl
  have hgeA : InMemoryDataAccessor.getEntry tbase ⟨R ++ [("a", c1tree r)], M⟩
      "http://test.com/a/" =
      .ok (.containerEntry [("b", c1treeB r)] (some (c1md "http://test.com/a/"))) := by
    unfold InMemoryDataAccessor.getEntry
    rw [show InMemoryDataAccessor.memParts tbase "http://test.com/a/" = ["a"] from rfl]
    show InMemoryDataAccessor.getEntryAux (R ++ [("a", c1tree r)]) ["a"] = _
    simp only [InMemoryDataAccessor.getEntryAux]
    rw [hlkT]
  have hgeB : InMemoryDataAccessor.getEntry tbase ⟨R ++ [("a", c1tree r)], M⟩
      "http://test.com/a/b/" = .ok (c1treeB r) := by
    unfold InMemoryDataAccessor.getEntry
    rw [show InMemoryDataAccessor.memParts tbase "http://test.com/a/b/" = ["a", "b"]
      from rfl]
    show InMemoryDataAccessor.getEntryAux (R ++ [("a", c1tree r)]) ["a", "b"] = _
    simp only [InMemoryDataAccessor.getEntryAux]
    rw [hlkT]
    rfl
  have hgeC : InMemoryDataAccessor.getEntry tbase ⟨R ++ [("a", c1tree r)], M⟩
      "http://test.com/a/b/c/" = .ok (c1treeC r) := by
    unfold InMemoryDataAccessor.getEntry
    rw [show InMemoryDataAccessor.memParts tbase "http://test.com/a/b/c/" =
      ["a", "b", "c"] from rfl]
    show InMemoryDataAccessor.getEntryAux (R ++ [("a", c1tree r)]) ["a", "b", "c"] = _
    simp only [InMemoryDataAccessor.getEntryAux]
    rw [hlkT]
    rfl
  have hgeD : InMemoryDataAccessor.getEntry tbase ⟨R ++ [("a", c1tree r)], M⟩
      "http://test.com/a/b/c/resource" =
      .ok (.dataEntry r.data.chunks (some (c1resourceMd r))) := by
    unfold InMemoryDataAccessor.getEntry
    rw [show InMemoryDataAccessor.memParts tbase "http://test.com/a/b/c/resource" =
      ["a", "b", "c", "resource"] from rfl]
    show InMemoryDataAccessor.getEntryAux (R ++ [("a", c1tree r)])
      ["a", "b", "c", "resource"] = _
    simp only [InMemoryDataAccessor.getEntryAux]
    rw [hlkT]
    rfl
  have hgmA : InMemoryDataAccessor.getMetadata tbase ⟨R ++ [("a", c1tree r)], M⟩
      "http://test.com/a/" =
      .ok (InMemoryDataAccessor.generateMetadata "http://test.com/a/"
        (.containerEntry [("b", c1treeB r)] (some (c1md "http://test.com/a/")))) := by
    unfold InMemoryDataAccessor.getMetadata
    rw [hgeA]
    rfl
  have hgmB : InMemoryDataAccessor.getMetadata tbase ⟨R ++ [("a", c1tree r)], M⟩
      "http://test.com/a/b/" =
      .ok (InMemoryDataAccessor.generateMetadata "http://test.com/a/b/" (c1treeB r)) := by
    unfold InMemoryDataAccessor.getMetadata
    rw [hgeB]
    rfl
  have hgmC : InMemoryDataAccessor.getMetadata tbase ⟨R ++ [("a", c1tree r)], M⟩
      "http://test.com/a/b/c/" =
      .ok (InMemoryDataAccessor.generateMetadata "http://test.com/a/b/c/" (c1treeC r)) := by
    unfold InMemoryDataAccessor.getMetadata
    rw [hgeC]
    rfl
  have hset5 : InMemoryDataAccessor.setEntryAux
      (.dataEntry r.data.chunks (some (c1resourceMd r)))
      (R ++ [("a", c1tree r)]) ["a", "b", "c", "resource"] =
      .ok (R ++ [("a", c1tree r)]) := by
    simp only [InMemoryDataAccessor.setEntryAux]
    rw [hlkT]
    show Except.ok (InMemoryDataAccessor.insertEntry (R ++ [("a", c1tree r)]) "a"
        (CacheEntry.containerEntry [("b", c1treeB r)]
          (some (c1md "http://test.com/a/")))) =
      Except.ok (R ++ [("a", c1tree r)])
    rw [InMemoryDataAccessor.insertEntry_append_update R "a" _ _ hR]
    rfl
  have hsAt : InMemoryDataAccessor.setEntryAt tbase ⟨R ++ [("a", c1tree r)], M⟩
      "http://test.com/a/b/c/resource"
      (.dataEntry r.data.chunks (some (c1resourceMd r))) =
      .ok ⟨R ++ [("a", c1tree r)], M⟩ := by
    unfold InMemoryDataAccessor.setEntryAt
    rw [show InMemoryDataAccessor.memParts tbase "http://test.com/a/b/c/resource" =
      ["a", "b", "c", "resource"] from rfl]
    simp only
    rw [hset5]
  have hgd : InMemoryDataAccessor.getData tbase ⟨R ++ [("a", c1tree r)], M⟩
      "http://test.com/a/b/c/resource" =
      .ok (streamifyBytes r.data.chunks, ⟨R ++ [("a", c1tree r)], M⟩) := by
    unfold InMemoryDataAccessor.getData
    rw [hgeD]
    simp only
    rw [hsAt]
  exact ⟨hmain, ⟨_, hgmA, rfl⟩, ⟨_, hgmB, rfl⟩, ⟨_, hgmC, rfl⟩, ⟨_, hgd⟩⟩

/-- C1 witness: the cascading-creation scenario instantiated with the
constructor's initial store and a concrete live representation. -/
theorem C1_setRepresentation_cascade_amended_witness :
    DataAccessorBasedStore.setRepresentation tbase 5 "http://test.com/a/b/c/resource"
      c1witnessRepr ⟨[], (InMemoryDataAccessor.init tbase).metadata⟩ =
      (.ok (), ⟨[] ++ [("a", c1tree c1witnessRepr)],
        (InMemoryDataAccessor.init tbase).metadata⟩) ∧
    (∃ m, InMemoryDataAccessor.getMetadata tbase
      ⟨[] ++ [("a", c1tree c1witnessRepr)], (InMemoryDataAccessor.init tbase).metadata⟩
      "http://test.com/a/" = .ok m ∧
      DataAccessorBasedStore.isExistingContainer m = .ok true) ∧
    (∃ m, InMemoryDataAccessor.getMetadata tbase
      ⟨[] ++ [("a", c1tree c1witnessRepr)], (InMemoryDataAccessor.init tbase).metadata⟩
      "http://test.com/a/b/" = .ok m ∧
      DataAccessorBasedStore.isExistingContainer m = .ok true) ∧
    (∃ m, InMemoryDataAccessor.getMetadata tbase
      ⟨[] ++ [("a", c1tree c1witnessRepr)], (InMemoryDataAccessor.init tbase).metadata⟩
      "http://test.com/a/b/c/" = .ok m ∧
      DataAccessorBasedStore.isExistingContainer m = .ok true) ∧
    (∃ s'', InMemoryDataAccessor.getData tbase
      ⟨[] ++ [("a", c1tree c1witnessRepr)], (InMemoryDataAccessor.init tbase).metadata⟩
      "http://test.com/a/b/c/resource" =
      .ok (streamifyBytes c1witnessRepr.data.chunks, s'')) :=
  C1_setRepresentation_cascade_amended [] (InMemoryDataAccessor.init tbase).metadata
    c1witnessRepr rfl rfl
    (fun q hq => absurd hq (by simp [c1witnessRepr, Metadata.empty]))
    rfl rfl

end CommunityServer
